import Mathlib

set_option maxRecDepth 100000

set_option maxHeartbeats 1000000

/-!
Verification of the Evidence Retrieval Strategy Engine and Citation
Reconciliation Pipeline of the SEC-Filings-QA-Agent repository.

The Lean definitions below are a shallow embedding of the Python sources
`sec_filing_qa_agent/qa_system.py` and `sec_filing_qa_agent/data_retriever.py`.
Text is modelled as `List Char`; the regex `\[C(\d+)\]` used by
`_parse_used_tags` and `_compact_renumber` is embedded as an explicit
left-to-right scanner with Python's leftmost, non-overlapping match
semantics; external HTTP calls are abstracted as function parameters or as
pre-parsed response data; Python floats appearing only in rendered output
are abstracted to their rendered strings.
-/

namespace SECQA

/-! ## Citation scanner: the regex `\[C(\d+)\]` of qa_system.py -/

/-- A token of the answer text: either one citation tag `[C<ds>]` (storing the
digit characters between `[C` and `]` verbatim, so that leading zeros are
preserved), or a single literal character. -/
inductive Tok where
  | tag (ds : List Char)
  | lit (c : Char)
deriving DecidableEq

/-- Numeric value of a digit character (`'0'` ↦ 0, …, `'9'` ↦ 9). -/
def charVal (c : Char) : Nat := c.toNat - 48

/-- Python `int` on a string of decimal digits. -/
def digitsToNat (ds : List Char) : Nat := ds.foldl (fun a c => 10 * a + charVal c) 0

/-- Split off the maximal (greedy) run of decimal digits at the head,
like the `\d+` of the regex. -/
def spanDigits : List Char → List Char × List Char
  | [] => ([], [])
  | c :: cs =>
    if c.isDigit then (c :: (spanDigits cs).1, (spanDigits cs).2)
    else ([], c :: cs)

theorem spanDigits_join : ∀ l : List Char, (spanDigits l).1 ++ (spanDigits l).2 = l := by
  intro l
  induction l with
  | nil => rfl
  | cons c cs ih =>
    by_cases hc : c.isDigit
    · simp [spanDigits, hc, ih]
    · simp [spanDigits, hc]

theorem spanDigits_digits : ∀ l : List Char, ∀ c ∈ (spanDigits l).1, c.isDigit := by
  intro l
  induction l with
  | nil => intro c hc; simp [spanDigits] at hc
  | cons c cs ih =>
    by_cases hc : c.isDigit
    · intro d hd
      simp only [spanDigits, if_pos hc, List.mem_cons] at hd
      rcases hd with hd | hd
      · exact hd ▸ hc
      · exact ih d hd
    · intro d hd; simp [spanDigits, hc] at hd

theorem spanDigits_append_of_digits {ds : List Char} (hdig : ∀ c ∈ ds, c.isDigit) :
    ∀ l : List Char, spanDigits (ds ++ l) = (ds ++ (spanDigits l).1, (spanDigits l).2) := by
  induction ds with
  | nil => intro l; simp
  | cons c cs ih =>
    intro l
    have hc : c.isDigit := hdig c (List.mem_cons_self ..)
    have hcs : ∀ d ∈ cs, d.isDigit := fun d hd => hdig d (List.mem_cons_of_mem _ hd)
    simp [spanDigits, hc, ih hcs]

theorem spanDigits_stop {l : List Char} {c : Char} {cs : List Char}
    (h : (spanDigits l).2 = c :: cs) : c.isDigit = false := by
  induction l with
  | nil => simp [spanDigits] at h
  | cons a as ih =>
    by_cases ha : a.isDigit
    · simp only [spanDigits, if_pos ha] at h
      exact ih h
    · simp only [spanDigits, if_neg ha] at h
      obtain ⟨h1, -⟩ := List.cons.injEq .. ▸ h
      subst h1
      exact Bool.not_eq_true _ ▸ ha

/-- Try to match the regex `\[C(\d+)\]` just after the literal `[C`:
a nonempty greedy digit run followed by `]`. -/
def matchBody (r : List Char) : Option (List Char × List Char) :=
  if (spanDigits r).1 ≠ [] ∧ (spanDigits r).2.head? = some ']' then
    some ((spanDigits r).1, (spanDigits r).2.tail)
  else none

/-- Try to match the regex `\[C(\d+)\]` at the head of the character list.
On success, returns the digit group and the remaining characters after the
match (the `\d+` is greedy, exactly as in the Python regex). -/
def matchTag : List Char → Option (List Char × List Char)
  | c₀ :: c₁ :: r => if c₀ = '[' ∧ c₁ = 'C' then matchBody r else none
  | _ => none

theorem matchTag_nil : matchTag [] = none := rfl

theorem matchTag_single (c : Char) : matchTag [c] = none := rfl

theorem matchBody_some {r ds rest : List Char} (h : matchBody r = some (ds, rest)) :
    r = ds ++ ']' :: rest ∧ ds ≠ [] ∧ (∀ c ∈ ds, c.isDigit) := by
  unfold matchBody at h
  by_cases hcond : (spanDigits r).1 ≠ [] ∧ (spanDigits r).2.head? = some (']' : Char)
  · rw [if_pos hcond] at h
    obtain ⟨hds, hrest⟩ := Prod.mk.injEq .. ▸ Option.some.injEq .. ▸ h
    obtain ⟨hne, hhead⟩ := hcond
    have h2 : (spanDigits r).2 = ']' :: (spanDigits r).2.tail := by
      cases hsp : (spanDigits r).2 with
      | nil => rw [hsp] at hhead; simp at hhead
      | cons x xs =>
        rw [hsp] at hhead
        simp only [List.head?] at hhead
        obtain hx := Option.some.injEq .. ▸ hhead
        rw [hx]; rfl
    refine ⟨?_, hds ▸ hne, hds ▸ spanDigits_digits r⟩
    have hj := spanDigits_join r
    rw [h2, hds, hrest] at hj
    exact hj.symm
  · rw [if_neg hcond] at h; simp at h

theorem matchTag_some {l : List Char} {ds rest : List Char}
    (h : matchTag l = some (ds, rest)) :
    l = '[' :: 'C' :: ds ++ ']' :: rest ∧ ds ≠ [] ∧ (∀ c ∈ ds, c.isDigit) := by
  match l with
  | [] => exact absurd h (by simp [matchTag])
  | [c] => exact absurd h (by simp [matchTag])
  | c₀ :: c₁ :: r =>
    by_cases hc : c₀ = '[' ∧ c₁ = 'C'
    · rw [matchTag, if_pos hc] at h
      obtain ⟨hr, hne, hdig⟩ := matchBody_some h
      refine ⟨?_, hne, hdig⟩
      rw [hc.1, hc.2, hr]
      simp
    · rw [matchTag, if_neg hc] at h; simp at h

theorem matchBody_build {ds : List Char} (rest : List Char)
    (hne : ds ≠ []) (hdig : ∀ c ∈ ds, c.isDigit) :
    matchBody (ds ++ ']' :: rest) = some (ds, rest) := by
  have hsp : spanDigits (ds ++ ']' :: rest) = (ds, ']' :: rest) := by
    rw [spanDigits_append_of_digits hdig]
    simp [spanDigits]
  unfold matchBody
  rw [hsp]
  simp [hne]

theorem matchTag_build {ds : List Char} (rest : List Char)
    (hne : ds ≠ []) (hdig : ∀ c ∈ ds, c.isDigit) :
    matchTag ('[' :: 'C' :: (ds ++ ']' :: rest)) = some (ds, rest) := by
  show (if ('[' : Char) = '[' ∧ ('C' : Char) = 'C' then matchBody (ds ++ ']' :: rest)
        else none) = some (ds, rest)
  rw [if_pos ⟨rfl, rfl⟩]
  exact matchBody_build rest hne hdig

theorem matchTag_length {l ds rest : List Char} (h : matchTag l = some (ds, rest)) :
    rest.length < l.length := by
  obtain ⟨hl, hne, -⟩ := matchTag_some h
  subst hl
  simp only [List.length_cons, List.length_append]
  omega

/-- Fuel-indexed scanner; `scan` below instantiates the fuel with the length
of the input, which is always sufficient. -/
def scanF : Nat → List Char → List Tok
  | 0, _ => []
  | _ + 1, [] => []
  | fuel + 1, c :: cs =>
    match matchTag (c :: cs) with
    | some (ds, rest) => .tag ds :: scanF fuel rest
    | none => .lit c :: scanF fuel cs

theorem scanF_step_tag {fuel : Nat} {c : Char} {cs ds rest : List Char}
    (h : matchTag (c :: cs) = some (ds, rest)) :
    scanF (fuel + 1) (c :: cs) = .tag ds :: scanF fuel rest := by
  simp only [scanF, h]

theorem scanF_step_lit {fuel : Nat} {c : Char} {cs : List Char}
    (h : matchTag (c :: cs) = none) :
    scanF (fuel + 1) (c :: cs) = .lit c :: scanF fuel cs := by
  simp only [scanF, h]

/-- Left-to-right scan of the text into citation tags and literal characters,
with the leftmost, non-overlapping semantics of Python's `re.finditer` /
`re.sub` for the pattern `\[C(\d+)\]`. -/
def scan (l : List Char) : List Tok := scanF l.length l

theorem scanF_congr : ∀ (n m : Nat) (l : List Char),
    l.length ≤ n → l.length ≤ m → scanF n l = scanF m l := by
  intro n
  induction n with
  | zero =>
    intro m l hn _
    have : l = [] := List.eq_nil_of_length_eq_zero (Nat.le_zero.mp hn)
    subst this
    cases m <;> rfl
  | succ n ih =>
    intro m l hn hm
    match l with
    | [] => cases m <;> rfl
    | c :: cs =>
      match m with
      | 0 => simp at hm
      | m + 1 =>
        cases hmt : matchTag (c :: cs) with
        | some p =>
          obtain ⟨ds, rest⟩ := p
          have hlen := matchTag_length hmt
          have h₁ : rest.length ≤ n := by
            simp only [List.length_cons] at hn hlen; omega
          have h₂ : rest.length ≤ m := by
            simp only [List.length_cons] at hm hlen; omega
          rw [scanF_step_tag hmt, scanF_step_tag hmt, ih m rest h₁ h₂]
        | none =>
          have h₁ : cs.length ≤ n := by simp at hn; omega
          have h₂ : cs.length ≤ m := by simp at hm; omega
          rw [scanF_step_lit hmt, scanF_step_lit hmt, ih m cs h₁ h₂]

theorem scanF_eq_scan {n : Nat} {l : List Char} (h : l.length ≤ n) :
    scanF n l = scan l := scanF_congr n l.length l h (Nat.le_refl _)

theorem scan_nil : scan [] = [] := rfl

theorem scan_tag {c : Char} {cs ds rest : List Char}
    (h : matchTag (c :: cs) = some (ds, rest)) :
    scan (c :: cs) = .tag ds :: scan rest := by
  have hlen := matchTag_length h
  show scanF (cs.length + 1) (c :: cs) = _
  rw [scanF_step_tag h]
  exact congrArg _ (scanF_eq_scan (by simp only [List.length_cons] at hlen; omega))

theorem scan_lit {c : Char} {cs : List Char} (h : matchTag (c :: cs) = none) :
    scan (c :: cs) = .lit c :: scan cs := by
  show scanF (cs.length + 1) (c :: cs) = _
  rw [scanF_step_lit h]
  rfl

/-- Characters of one token: a tag `ds` prints as `[C` ++ ds ++ `]`,
a literal prints as itself. -/
def renderTok : Tok → List Char
  | .tag ds => '[' :: 'C' :: ds ++ [']']
  | .lit c => [c]

/-- Characters of a token list. -/
def render : List Tok → List Char
  | [] => []
  | t :: ts => renderTok t ++ render ts

theorem render_scan : ∀ (n : Nat) (l : List Char), l.length ≤ n → render (scan l) = l := by
  intro n
  induction n with
  | zero =>
    intro l h
    have : l = [] := List.eq_nil_of_length_eq_zero (Nat.le_zero.mp h)
    subst this; rfl
  | succ n ih =>
    intro l hl
    match l with
    | [] => rfl
    | c :: cs =>
      cases hmt : matchTag (c :: cs) with
      | some p =>
        obtain ⟨ds, rest⟩ := p
        rw [scan_tag hmt]
        obtain ⟨hshape, -, -⟩ := matchTag_some hmt
        have hlen := matchTag_length hmt
        have : rest.length ≤ n := by
          simp only [List.length_cons] at hl hlen; omega
        simp only [render, renderTok, ih rest this]
        rw [hshape]
        simp
      | none =>
        rw [scan_lit hmt]
        have : cs.length ≤ n := by simp only [List.length_cons] at hl; omega
        simp only [render, renderTok, ih cs this]
        rfl

/-- Rendering is a left inverse of `scan`: the scan is a faithful
decomposition of the input text. -/
theorem render_scan_id (l : List Char) : render (scan l) = l :=
  render_scan l.length l (Nat.le_refl _)

/-! ## `_parse_used_tags` and `_compact_renumber` of qa_system.py -/

/-- Integer value referenced by a token, if it is a tag. -/
def tokVal : Tok → Option Nat
  | .tag ds => some (digitsToNat ds)
  | .lit _ => none

/-- The referenced integers of all tags, in textual order, with repeats. -/
def tagValues (l : List Char) : List Nat := (scan l).filterMap tokVal

/-- The `seen`-set/`order`-list loop of `_parse_used_tags`: first-occurrence
ordered de-duplication. -/
def dedupAux : List Nat → List Nat → List Nat
  | _, [] => []
  | seen, v :: vs =>
    if v ∈ seen then dedupAux seen vs else v :: dedupAux (v :: seen) vs

/-- Embeds `EnhancedSECQASystem._parse_used_tags`: the first-occurrence-ordered,
de-duplicated sequence of integers n over all matches `[Cn]` in the text. -/
def parseUsedTags (l : List Char) : List Nat := dedupAux [] (tagValues l)

/-- The dict comprehension `{old: new for new, old in enumerate(used_ids, start=1)}`
of `_compact_renumber`, looked up at `v`; on duplicate keys the later entry
wins, as in a Python dict build. `i` is the `enumerate` counter. -/
def mappingAux : List Nat → Nat → Nat → Option Nat
  | [], _, _ => none
  | u :: us, i, v =>
    match mappingAux us (i + 1) v with
    | some k => some k
    | none => if u = v then some i else none

/-- The renumbering map of `_compact_renumber` built from `used_ids`. -/
def pyMapping (used : List Nat) (v : Nat) : Option Nat := mappingAux used 1 v

/-- Decimal digit characters of `k`, most significant first (fuel-indexed;
`natDigitChars` supplies sufficient fuel). Mirrors Python's `f"{k}"`. -/
def natDigitsAux : Nat → Nat → List Char
  | 0, _ => []
  | _ + 1, 0 => []
  | fuel + 1, n + 1 => natDigitsAux fuel ((n + 1) / 10) ++ [Nat.digitChar ((n + 1) % 10)]

/-- Decimal digit characters of a positive `k`, as rendered by
`f"[C{mapping[old_id]}]"`. -/
def natDigitChars (k : Nat) : List Char := natDigitsAux k k

/-- The `replace` callback of `_compact_renumber` applied to one token:
a tag whose value is in the mapping is rewritten to the canonical decimal
rendering of its new number; any other tag, and every literal character,
is left verbatim. -/
def mapTok (m : Nat → Option Nat) : Tok → Tok
  | .tag ds =>
    match m (digitsToNat ds) with
    | some k => .tag (natDigitChars k)
    | none => .tag ds
  | .lit c => .lit c

/-- Embeds `EnhancedSECQASystem._compact_renumber`: the `re.sub` pass over the text
rewriting every match `[Cn]` with `n` in the mapping built from `used_ids`. -/
def compactRenumber (l : List Char) (used : List Nat) : List Char :=
  render ((scan l).map (mapTok (pyMapping used)))

/-! ### Digit-rendering lemmas -/

theorem charVal_digitChar {d : Nat} (h : d < 10) : charVal (Nat.digitChar d) = d := by
  interval_cases d <;> rfl

theorem isDigit_digitChar {d : Nat} (h : d < 10) : (Nat.digitChar d).isDigit := by
  interval_cases d <;> rfl

theorem digitsToNat_append_one (ds : List Char) (c : Char) :
    digitsToNat (ds ++ [c]) = 10 * digitsToNat ds + charVal c := by
  unfold digitsToNat
  rw [List.foldl_append]
  rfl

theorem natDigitsAux_sound : ∀ (fuel k : Nat), k ≤ fuel →
    digitsToNat (natDigitsAux fuel k) = k ∧
    (∀ c ∈ natDigitsAux fuel k, c.isDigit) ∧
    (k ≠ 0 → natDigitsAux fuel k ≠ []) := by
  intro fuel
  induction fuel with
  | zero =>
    intro k hk
    have : k = 0 := Nat.le_zero.mp hk
    subst this
    exact ⟨rfl, by simp [natDigitsAux], by simp⟩
  | succ fuel ih =>
    intro k hk
    match k with
    | 0 => exact ⟨rfl, by simp [natDigitsAux], by simp⟩
    | n + 1 =>
      have hdiv : (n + 1) / 10 ≤ fuel := by
        have h1 : (n + 1) / 10 < n + 1 := Nat.div_lt_self (Nat.succ_pos n) (by omega)
        omega
      obtain ⟨ihv, ihd, -⟩ := ih ((n + 1) / 10) hdiv
      have hmod : (n + 1) % 10 < 10 := Nat.mod_lt _ (by omega)
      refine ⟨?_, ?_, ?_⟩
      · rw [natDigitsAux, digitsToNat_append_one, ihv, charVal_digitChar hmod]
        omega
      · intro c hc
        rw [natDigitsAux] at hc
        rcases List.mem_append.mp hc with hc | hc
        · exact ihd c hc
        · rw [List.mem_singleton.mp hc]
          exact isDigit_digitChar hmod
      · intro _
        rw [natDigitsAux]
        simp

theorem digitsToNat_natDigitChars (k : Nat) : digitsToNat (natDigitChars k) = k :=
  (natDigitsAux_sound k k (Nat.le_refl _)).1

theorem natDigitChars_digits (k : Nat) : ∀ c ∈ natDigitChars k, c.isDigit :=
  (natDigitsAux_sound k k (Nat.le_refl _)).2.1

theorem natDigitChars_ne_nil {k : Nat} (h : k ≠ 0) : natDigitChars k ≠ [] :=
  (natDigitsAux_sound k k (Nat.le_refl _)).2.2 h

/-! ### Stability of the scan under tag rewriting

`re.sub` rewrites each matched tag to `[C<k>]`. The lemmas below show that
rescanning the rewritten text recovers exactly the rewritten token list:
a suffix that is empty or starts with `[` (the first character of any
rewritten tag) can never complete a match begun in the preceding literal
characters. -/

/-- A suffix at a token boundary: empty, or starting with `[`. -/
def TagBoundary (s : List Char) : Prop := s = [] ∨ ∃ s', s = '[' :: s'

theorem spanDigits_boundary {s : List Char} (hs : TagBoundary s) :
    spanDigits s = ([], s) := by
  rcases hs with rfl | ⟨s', rfl⟩
  · rfl
  · have : ('[' : Char).isDigit = false := by decide
    simp [spanDigits, this]

theorem matchBody_append_boundary {r s : List Char} (hs : TagBoundary s) :
    matchBody (r ++ s) = (matchBody r).map (fun p => (p.1, p.2 ++ s)) := by
  rcases hsp : spanDigits r with ⟨ds, r2⟩
  have hds : ∀ c ∈ ds, c.isDigit := by
    have := spanDigits_digits r
    rw [hsp] at this
    exact this
  have hjoin : ds ++ r2 = r := by
    have := spanDigits_join r
    rw [hsp] at this
    exact this
  cases r2 with
  | nil =>
    have hr : r = ds := by rw [← hjoin, List.append_nil]
    have hspan : spanDigits (r ++ s) = (ds, s) := by
      rw [hr, spanDigits_append_of_digits hds, spanDigits_boundary hs]
      simp
    have hhead : s.head? ≠ some (']' : Char) := by
      rcases hs with rfl | ⟨s', rfl⟩ <;> simp
    unfold matchBody
    rw [hspan, hsp]
    simp [hhead]
  | cons e tail =>
    have he : e.isDigit = false := by
      apply spanDigits_stop (l := r)
      rw [hsp]
    have hspan : spanDigits (r ++ s) = (ds, e :: (tail ++ s)) := by
      rw [← hjoin, List.append_assoc, spanDigits_append_of_digits hds]
      simp [spanDigits, he]
    unfold matchBody
    rw [hspan, hsp]
    by_cases hne : ds = []
    · simp [hne]
    · by_cases hej : e = ']'
      · simp [hne, hej]
      · simp [hne, hej]

theorem matchTag_append_boundary {l s : List Char} (hl : l ≠ []) (hs : TagBoundary s) :
    matchTag (l ++ s) = (matchTag l).map (fun p => (p.1, p.2 ++ s)) := by
  match l with
  | [] => exact absurd rfl hl
  | [c] =>
    have hrhs : matchTag [c] = none := matchTag_single c
    rw [hrhs]
    rcases hs with rfl | ⟨s', rfl⟩
    · exact matchTag_single c
    · show (if c = '[' ∧ ('[' : Char) = 'C' then matchBody s' else none) = none
      have : ¬(c = '[' ∧ ('[' : Char) = 'C') := by
        rintro ⟨-, h⟩
        exact absurd h (by decide)
      rw [if_neg this]
  | c₀ :: c₁ :: r =>
    show (if c₀ = '[' ∧ c₁ = 'C' then matchBody (r ++ s) else none) =
      ((if c₀ = '[' ∧ c₁ = 'C' then matchBody r else none).map fun p => (p.1, p.2 ++ s))
    by_cases hc : c₀ = '[' ∧ c₁ = 'C'
    · rw [if_pos hc, if_pos hc, matchBody_append_boundary hs]
    · rw [if_neg hc, if_neg hc]
      rfl

/-- Split a token list into its leading literal characters and the remainder
(which is empty or starts with a tag). -/
def litSplit : List Tok → List Char × List Tok
  | [] => ([], [])
  | .lit c :: ts => (c :: (litSplit ts).1, (litSplit ts).2)
  | .tag ds :: ts => ([], .tag ds :: ts)

theorem litSplit_render : ∀ toks : List Tok,
    render toks = (litSplit toks).1 ++ render (litSplit toks).2 := by
  intro toks
  induction toks with
  | nil => rfl
  | cons t ts ih =>
    cases t with
    | lit c => simp only [litSplit, render, renderTok, ih]; rfl
    | tag ds => simp [litSplit]

theorem litSplit_boundary : ∀ toks : List Tok, TagBoundary (render (litSplit toks).2) := by
  intro toks
  induction toks with
  | nil => exact Or.inl rfl
  | cons t ts ih =>
    cases t with
    | lit c => exact ih
    | tag ds =>
      right
      exact ⟨'C' :: ds ++ [']'] ++ render ts, by simp [litSplit, render, renderTok]⟩

theorem litSplit_map (m : Nat → Option Nat) : ∀ toks : List Tok,
    litSplit (toks.map (mapTok m)) =
      ((litSplit toks).1, (litSplit toks).2.map (mapTok m)) := by
  intro toks
  induction toks with
  | nil => rfl
  | cons t ts ih =>
    cases t with
    | lit c => simp only [List.map_cons, mapTok, litSplit, ih]
    | tag ds =>
      cases hm : m (digitsToNat ds) with
      | some k => simp [List.map_cons, mapTok, hm, litSplit]
      | none => simp [List.map_cons, mapTok, hm, litSplit]

theorem matchTag_none_map {c : Char} {toks : List Tok} (m : Nat → Option Nat)
    (h : matchTag (c :: render toks) = none) :
    matchTag (c :: render (toks.map (mapTok m))) = none := by
  rcases hsp : litSplit toks with ⟨ws, rest⟩
  have h1 : c :: render toks = (c :: ws) ++ render rest := by
    rw [litSplit_render toks, hsp]
    rfl
  have hb : TagBoundary (render rest) := by
    have := litSplit_boundary toks
    rw [hsp] at this
    exact this
  rw [h1, matchTag_append_boundary (by simp) hb] at h
  have h0 : matchTag (c :: ws) = none := by
    cases hmt : matchTag (c :: ws) with
    | none => rfl
    | some p => rw [hmt] at h; simp at h
  have h2 : c :: render (toks.map (mapTok m)) =
      (c :: ws) ++ render (rest.map (mapTok m)) := by
    rw [litSplit_render (toks.map (mapTok m)), litSplit_map m toks, hsp]
    rfl
  have hb2 : TagBoundary (render (rest.map (mapTok m))) := by
    have := litSplit_boundary (toks.map (mapTok m))
    rw [litSplit_map m toks, hsp] at this
    exact this
  rw [h2, matchTag_append_boundary (by simp) hb2, h0]
  rfl

/-- Well-formed token lists: every tag has a nonempty all-digit group, and no
literal character begins a match against the rendered remainder. `scan`
produces only well-formed lists, and tag rewriting preserves well-formedness. -/
inductive Good : List Tok → Prop
  | nil : Good []
  | tag {ds : List Char} {rest : List Tok} :
      ds ≠ [] → (∀ c ∈ ds, c.isDigit) → Good rest → Good (.tag ds :: rest)
  | lit {c : Char} {rest : List Tok} :
      matchTag (c :: render rest) = none → Good rest → Good (.lit c :: rest)

theorem good_scan : ∀ (n : Nat) (l : List Char), l.length ≤ n → Good (scan l) := by
  intro n
  induction n with
  | zero =>
    intro l h
    have : l = [] := List.eq_nil_of_length_eq_zero (Nat.le_zero.mp h)
    subst this
    exact Good.nil
  | succ n ih =>
    intro l hl
    match l with
    | [] => exact Good.nil
    | c :: cs =>
      cases hmt : matchTag (c :: cs) with
      | some p =>
        obtain ⟨ds, rest⟩ := p
        rw [scan_tag hmt]
        obtain ⟨-, hne, hdig⟩ := matchTag_some hmt
        have hlen := matchTag_length hmt
        exact Good.tag hne hdig
          (ih rest (by simp only [List.length_cons] at hl hlen; omega))
      | none =>
        rw [scan_lit hmt]
        have hcs : cs.length ≤ n := by simp only [List.length_cons] at hl; omega
        refine Good.lit ?_ (ih cs hcs)
        rw [render_scan_id cs]
        exact hmt

theorem good_scan_id (l : List Char) : Good (scan l) :=
  good_scan l.length l (Nat.le_refl _)

theorem good_map {toks : List Tok} (m : Nat → Option Nat)
    (hm : ∀ v k, m v = some k → k ≠ 0) (h : Good toks) :
    Good (toks.map (mapTok m)) := by
  induction h with
  | nil => exact Good.nil
  | @tag ds rest hne hdig _ ih =>
    show Good (mapTok m (.tag ds) :: rest.map (mapTok m))
    cases hv : m (digitsToNat ds) with
    | some k =>
      simp only [mapTok, hv]
      exact Good.tag (natDigitChars_ne_nil (hm _ _ hv)) (natDigitChars_digits k) ih
    | none =>
      simp only [mapTok, hv]
      exact Good.tag hne hdig ih
  | @lit c rest hnone _ ih =>
    show Good (mapTok m (.lit c) :: rest.map (mapTok m))
    simp only [mapTok]
    exact Good.lit (matchTag_none_map m hnone) ih

/-- Rescanning a rendered well-formed token list recovers it exactly. -/
theorem scan_render {toks : List Tok} (h : Good toks) : scan (render toks) = toks := by
  induction h with
  | nil => exact scan_nil
  | @tag ds rest hne hdig _ ih =>
    have hshape : render (.tag ds :: rest) = '[' :: 'C' :: (ds ++ ']' :: render rest) := by
      simp [render, renderTok]
    rw [hshape, scan_tag (matchTag_build (render rest) hne hdig), ih]
  | @lit c rest hnone _ ih =>
    have hshape : render (.lit c :: rest) = c :: render rest := by
      simp [render, renderTok]
    rw [hshape, scan_lit hnone, ih]

/-! ### Properties of the de-duplication and of the renumbering map -/

theorem mem_of_mem_dedupAux : ∀ (seen vs : List Nat) (x : Nat),
    x ∈ dedupAux seen vs → x ∈ vs := by
  intro seen vs
  induction vs generalizing seen with
  | nil => intro x hx; simp [dedupAux] at hx
  | cons v vs ih =>
    intro x hx
    by_cases hv : v ∈ seen
    · simp only [dedupAux, if_pos hv] at hx
      exact List.mem_cons_of_mem _ (ih seen x hx)
    · simp only [dedupAux, if_neg hv, List.mem_cons] at hx
      rcases hx with rfl | hx
      · exact List.mem_cons_self ..
      · exact List.mem_cons_of_mem _ (ih (v :: seen) x hx)

theorem mem_dedupAux_of_mem : ∀ (seen vs : List Nat) (x : Nat),
    x ∈ vs → x ∉ seen → x ∈ dedupAux seen vs := by
  intro seen vs
  induction vs generalizing seen with
  | nil => intro x hx _; simp at hx
  | cons v vs ih =>
    intro x hx hseen
    by_cases hv : v ∈ seen
    · simp only [dedupAux, if_pos hv]
      rcases List.mem_cons.mp hx with rfl | hx
      · exact absurd hv hseen
      · exact ih seen x hx hseen
    · simp only [dedupAux, if_neg hv, List.mem_cons]
      rcases List.mem_cons.mp hx with rfl | hx
      · exact Or.inl rfl
      · by_cases hxv : x = v
        · exact Or.inl hxv
        · refine Or.inr (ih (v :: seen) x hx ?_)
          simp only [List.mem_cons]
          rintro (rfl | h)
          · exact hxv rfl
          · exact hseen h

theorem dedupAux_nodup : ∀ (seen vs : List Nat),
    (dedupAux seen vs).Nodup ∧ ∀ x ∈ dedupAux seen vs, x ∉ seen := by
  intro seen vs
  induction vs generalizing seen with
  | nil => exact ⟨List.nodup_nil, by simp [dedupAux]⟩
  | cons v vs ih =>
    by_cases hv : v ∈ seen
    · simp only [dedupAux, if_pos hv]
      exact ih seen
    · simp only [dedupAux, if_neg hv]
      obtain ⟨hnd, hout⟩ := ih (v :: seen)
      refine ⟨List.nodup_cons.mpr ⟨?_, hnd⟩, ?_⟩
      · intro hmem
        exact hout v hmem (List.mem_cons_self ..)
      · intro x hx
        rcases List.mem_cons.mp hx with rfl | hx
        · exact hv
        · intro hxs
          exact hout x hx (List.mem_cons_of_mem _ hxs)

theorem mappingAux_none_of_not_mem : ∀ (us : List Nat) (i v : Nat),
    v ∉ us → mappingAux us i v = none := by
  intro us
  induction us with
  | nil => intro i v _; rfl
  | cons u us ih =>
    intro i v hv
    have hvu : u ≠ v := fun h => hv (h ▸ List.mem_cons_self ..)
    have hvs : v ∉ us := fun h => hv (List.mem_cons_of_mem _ h)
    simp only [mappingAux, ih (i + 1) v hvs, if_neg hvu]

theorem mappingAux_some : ∀ (us : List Nat) (i v k : Nat),
    mappingAux us i v = some k → i ≤ k ∧ k < i + us.length ∧ us[k - i]? = some v := by
  intro us
  induction us with
  | nil => intro i v k h; simp [mappingAux] at h
  | cons u us ih =>
    intro i v k h
    simp only [mappingAux] at h
    cases hrec : mappingAux us (i + 1) v with
    | some k' =>
      rw [hrec] at h
      have hk : k = k' := by simpa using h.symm
      subst hk
      obtain ⟨h1, h2, h3⟩ := ih (i + 1) v k hrec
      refine ⟨by omega, by simp only [List.length_cons]; omega, ?_⟩
      have hki : k - i = (k - (i + 1)) + 1 := by omega
      rw [hki, List.getElem?_cons_succ]
      exact h3
    | none =>
      rw [hrec] at h
      by_cases hu : u = v
      · rw [if_pos hu] at h
        obtain rfl : i = k := by simpa using h
        refine ⟨Nat.le_refl _, by simp only [List.length_cons]; omega, ?_⟩
        simp [hu]
      · rw [if_neg hu] at h
        simp at h

theorem mappingAux_get_of_nodup : ∀ (us : List Nat) (i j v : Nat),
    us.Nodup → us[j]? = some v → mappingAux us i v = some (i + j) := by
  intro us
  induction us with
  | nil => intro i j v _ h; simp at h
  | cons u us ih =>
    intro i j v hnd hj
    obtain ⟨hnotin, hnd'⟩ := List.nodup_cons.mp hnd
    match j with
    | 0 =>
      obtain rfl : u = v := by simpa using hj
      have hnone : mappingAux us (i + 1) u = none :=
        mappingAux_none_of_not_mem us (i + 1) u hnotin
      simp [mappingAux, hnone]
    | j + 1 =>
      rw [List.getElem?_cons_succ] at hj
      have hrec := ih (i + 1) j v hnd' hj
      simp only [mappingAux, hrec]
      congr 1
      omega

theorem mappingAux_isSome_of_mem : ∀ (us : List Nat) (i v : Nat),
    v ∈ us → (mappingAux us i v).isSome := by
  intro us
  induction us with
  | nil => intro i v h; simp at h
  | cons u us ih =>
    intro i v hv
    simp only [mappingAux]
    cases hrec : mappingAux us (i + 1) v with
    | some k => rfl
    | none =>
      rcases List.mem_cons.mp hv with rfl | hv
      · simp
      · have := ih (i + 1) v hv
        rw [hrec] at this
        simp at this

theorem pyMapping_pos (used : List Nat) {v k : Nat} (h : pyMapping used v = some k) :
    k ≠ 0 := by
  have := (mappingAux_some used 1 v k h).1
  omega

/-- The value assigned to the `j`-th (0-based) element of a duplicate-free
`used_ids` list is `1 + j`: the k-th distinct id maps to k. -/
theorem pyMapping_get (used : List Nat) (hnd : used.Nodup) {j v : Nat}
    (h : used[j]? = some v) : pyMapping used v = some (1 + j) :=
  mappingAux_get_of_nodup used 1 j v hnd h

theorem pyMapping_inj (used : List Nat) {a b ka kb : Nat}
    (ha : pyMapping used a = some ka) (hb : pyMapping used b = some kb)
    (hk : ka = kb) : a = b := by
  obtain ⟨ha1, -, ha3⟩ := mappingAux_some used 1 a ka ha
  obtain ⟨-, -, hb3⟩ := mappingAux_some used 1 b kb hb
  subst hk
  rw [ha3] at hb3
  exact Option.some.injEq .. ▸ hb3

/-! ### The renumbering round trip -/

theorem scan_compactRenumber (t : List Char) (used : List Nat) :
    scan (compactRenumber t used) = (scan t).map (mapTok (pyMapping used)) :=
  scan_render (good_map _ (fun _ _ h => pyMapping_pos used h) (good_scan_id t))

theorem filterMap_tokVal_map (m : Nat → Option Nat) :
    ∀ toks : List Tok, (∀ v ∈ toks.filterMap tokVal, (m v).isSome) →
      (toks.map (mapTok m)).filterMap tokVal =
        (toks.filterMap tokVal).map (fun v => (m v).getD 0) := by
  intro toks
  induction toks with
  | nil => intro _; rfl
  | cons tok rest ih =>
    intro hsome
    cases tok with
    | lit c =>
      have h1 : tokVal (Tok.lit c) = none := rfl
      have h2 : tokVal (mapTok m (Tok.lit c)) = none := rfl
      simp only [List.map_cons, List.filterMap_cons, h1, h2]
      exact ih (by simpa only [List.filterMap_cons, h1] using hsome)
    | tag ds =>
      have h1 : tokVal (Tok.tag ds) = some (digitsToNat ds) := rfl
      have hmem : digitsToNat ds ∈ (Tok.tag ds :: rest).filterMap tokVal := by
        exact List.mem_filterMap.mpr ⟨Tok.tag ds, List.mem_cons_self .., h1⟩
      obtain ⟨k, hk⟩ := Option.isSome_iff_exists.mp (hsome _ hmem)
      have h2 : tokVal (mapTok m (Tok.tag ds)) = some k := by
        simp only [mapTok, hk, tokVal, digitsToNat_natDigitChars]
      have hrest : ∀ v ∈ rest.filterMap tokVal, (m v).isSome := by
        intro v hv
        exact hsome v (by simp only [List.filterMap_cons, h1]; exact List.mem_cons_of_mem _ hv)
      simp only [List.map_cons, List.filterMap_cons, h1, h2, ih hrest, hk, Option.getD_some]

theorem dedupAux_map (g : Nat → Nat) : ∀ (vs seen : List Nat),
    (∀ a b, (a ∈ vs ∨ a ∈ seen) → (b ∈ vs ∨ b ∈ seen) → g a = g b → a = b) →
    dedupAux (seen.map g) (vs.map g) = (dedupAux seen vs).map g := by
  intro vs
  induction vs with
  | nil => intro seen _; rfl
  | cons v vs ih =>
    intro seen hinj
    have hmemiff : g v ∈ seen.map g ↔ v ∈ seen := by
      constructor
      · intro h
        obtain ⟨w, hw, hgw⟩ := List.mem_map.mp h
        have : w = v :=
          hinj w v (Or.inr hw) (Or.inl (List.mem_cons_self ..)) hgw
        exact this ▸ hw
      · intro h
        exact List.mem_map.mpr ⟨v, h, rfl⟩
    by_cases hv : v ∈ seen
    · simp only [List.map_cons, dedupAux, if_pos (hmemiff.mpr hv), if_pos hv]
      exact ih seen (fun a b ha hb => hinj a b
        (ha.imp (List.mem_cons_of_mem _) id) (hb.imp (List.mem_cons_of_mem _) id))
    · have hgv : g v ∉ seen.map g := fun h => hv (hmemiff.mp h)
      simp only [List.map_cons, dedupAux, if_neg hgv, if_neg hv]
      have : (v :: seen).map g = g v :: seen.map g := rfl
      rw [← this, ih (v :: seen) ?_]
      intro a b ha hb
      apply hinj a b
      · rcases ha with ha | ha
        · exact Or.inl (List.mem_cons_of_mem _ ha)
        · rcases List.mem_cons.mp ha with rfl | ha
          · exact Or.inl (List.mem_cons_self ..)
          · exact Or.inr ha
      · rcases hb with hb | hb
        · exact Or.inl (List.mem_cons_of_mem _ hb)
        · rcases List.mem_cons.mp hb with rfl | hb
          · exact Or.inl (List.mem_cons_self ..)
          · exact Or.inr hb

theorem mem_parse_of_mem_tagValues {t : List Char} {v : Nat}
    (h : v ∈ tagValues t) : v ∈ parseUsedTags t :=
  mem_dedupAux_of_mem [] (tagValues t) v h (by simp)

theorem parse_nodup (t : List Char) : (parseUsedTags t).Nodup :=
  (dedupAux_nodup [] (tagValues t)).1

theorem pyMapping_isSome_of_mem_tagValues {t : List Char} {v : Nat}
    (h : v ∈ tagValues t) : (pyMapping (parseUsedTags t) v).isSome :=
  mappingAux_isSome_of_mem _ 1 v (mem_parse_of_mem_tagValues h)

theorem map_pyMapping_range (used : List Nat) (hnd : used.Nodup) :
    used.map (fun v => (pyMapping used v).getD 0) = List.range' 1 used.length := by
  apply List.ext_getElem?
  intro i
  by_cases hi : i < used.length
  · rw [List.getElem?_map]
    cases hv : used[i]? with
    | none =>
      exact absurd hv (by simp [List.getElem?_eq_some_iff]; omega)
    | some v =>
      simp only [Option.map_some']
      show some ((pyMapping used v).getD 0) = _
      rw [pyMapping_get used hnd hv]
      simp [List.getElem?_range', hi]
  · have h1 : (used.map fun v => (pyMapping used v).getD 0)[i]? = none := by
      simp [List.getElem?_eq_none_iff]; omega
    have h2 : (List.range' 1 used.length)[i]? = none := by
      simp [List.getElem?_eq_none_iff]; omega
    rw [h1, h2]

theorem tagValues_compactRenumber (t : List Char) :
    tagValues (compactRenumber t (parseUsedTags t)) =
      (tagValues t).map (fun v => (pyMapping (parseUsedTags t) v).getD 0) := by
  show (scan (compactRenumber t (parseUsedTags t))).filterMap tokVal = _
  rw [scan_compactRenumber]
  exact filterMap_tokVal_map _ (scan t)
    (fun v hv => pyMapping_isSome_of_mem_tagValues hv)

theorem parse_compactRenumber (t : List Char) :
    parseUsedTags (compactRenumber t (parseUsedTags t)) =
      List.range' 1 (parseUsedTags t).length := by
  have hinj : ∀ a b, (a ∈ tagValues t ∨ a ∈ ([] : List Nat)) →
      (b ∈ tagValues t ∨ b ∈ ([] : List Nat)) →
      (pyMapping (parseUsedTags t) a).getD 0 = (pyMapping (parseUsedTags t) b).getD 0 →
      a = b := by
    intro a b ha hb hg
    rcases ha with ha | ha
    · rcases hb with hb | hb
      · obtain ⟨ka, hka⟩ := Option.isSome_iff_exists.mp (pyMapping_isSome_of_mem_tagValues ha)
        obtain ⟨kb, hkb⟩ := Option.isSome_iff_exists.mp (pyMapping_isSome_of_mem_tagValues hb)
        rw [hka, hkb] at hg
        simp only [Option.getD_some] at hg
        exact pyMapping_inj (parseUsedTags t) hka hkb hg
      · simp at hb
    · simp at ha
  have step1 : parseUsedTags (compactRenumber t (parseUsedTags t)) =
      dedupAux [] ((tagValues t).map (fun v => (pyMapping (parseUsedTags t) v).getD 0)) := by
    show dedupAux [] (tagValues (compactRenumber t (parseUsedTags t))) = _
    rw [tagValues_compactRenumber]
  have step2 : dedupAux [] ((tagValues t).map (fun v => (pyMapping (parseUsedTags t) v).getD 0)) =
      (dedupAux [] (tagValues t)).map (fun v => (pyMapping (parseUsedTags t) v).getD 0) := by
    have := dedupAux_map (fun v => (pyMapping (parseUsedTags t) v).getD 0) (tagValues t) [] hinj
    simpa using this
  rw [step1, step2]
  exact map_pyMapping_range (parseUsedTags t) (parse_nodup t)

theorem pyMapping_range_self {n k : Nat} (h1 : 1 ≤ k) (h2 : k ≤ n) :
    pyMapping (List.range' 1 n) k = some k := by
  have hget : (List.range' 1 n)[k - 1]? = some k := by
    have hlt : k - 1 < n := by omega
    rw [List.getElem?_range' _ _ hlt]
    congr 1
    omega
  have := pyMapping_get (List.range' 1 n) (List.nodup_range' _ _ 1 Nat.one_pos) hget
  rw [this]
  congr 1
  omega

theorem mapTok_second_pass (t : List Char) :
    ((scan t).map (mapTok (pyMapping (parseUsedTags t)))).map
        (mapTok (pyMapping (List.range' 1 (parseUsedTags t).length))) =
      (scan t).map (mapTok (pyMapping (parseUsedTags t))) := by
  rw [List.map_map]
  apply List.map_congr_left
  intro tok htok
  cases tok with
  | lit c => rfl
  | tag ds =>
    have hmem : digitsToNat ds ∈ tagValues t :=
      List.mem_filterMap.mpr ⟨Tok.tag ds, htok, rfl⟩
    obtain ⟨k, hk⟩ := Option.isSome_iff_exists.mp (pyMapping_isSome_of_mem_tagValues hmem)
    obtain ⟨hk1, hk2, hk3⟩ := mappingAux_some (parseUsedTags t) 1 (digitsToNat ds) k hk
    have hkn : k ≤ (parseUsedTags t).length := by omega
    show mapTok _ (mapTok _ (Tok.tag ds)) = mapTok _ (Tok.tag ds)
    simp only [mapTok, hk, digitsToNat_natDigitChars, pyMapping_range_self hk1 hkn]

/-- Master lemma for the citation renumbering round trip: rescanning the
rewritten text yields the mapped token list; re-parsing it yields exactly
`1, 2, …, k`; and renumbering a second time changes nothing. -/
theorem renumber_roundtrip (t : List Char) :
    scan (compactRenumber t (parseUsedTags t)) =
        (scan t).map (mapTok (pyMapping (parseUsedTags t))) ∧
    parseUsedTags (compactRenumber t (parseUsedTags t)) =
        List.range' 1 (parseUsedTags t).length ∧
    compactRenumber (compactRenumber t (parseUsedTags t))
        (parseUsedTags (compactRenumber t (parseUsedTags t))) =
      compactRenumber t (parseUsedTags t) := by
  refine ⟨scan_compactRenumber t (parseUsedTags t), parse_compactRenumber t, ?_⟩
  show render ((scan (compactRenumber t (parseUsedTags t))).map
      (mapTok (pyMapping (parseUsedTags (compactRenumber t (parseUsedTags t)))))) = _
  rw [parse_compactRenumber t, scan_compactRenumber t (parseUsedTags t),
    mapTok_second_pass t]
  rfl

/-! ## Data model (models.py) and the citation step of answer_question -/

/-- Embeds `models.DocumentChunk` (the fields the claims touch; `confidence_score`
is an exact rational since only the constants 1.0 and 0.8 occur). -/
structure DocumentChunk where
  content : List Char
  ticker : String
  filing_type : String
  filing_date : String
  «section» : Option String
  chunk_id : String
  source_url : String
  confidence_score : Rat
deriving DecidableEq

/-- Embeds `models.Source` as populated by `answer_question` (all optional fields
are filled there, so they are plain strings here). -/
structure Source where
  ticker : String
  filing_type : String
  filing_date : String
  «section» : String
  url : String
  chunk_id : String
deriving DecidableEq

/-- Python `x or default` on an optional string (`None` and `""` are falsy). -/
def pyOrStr (o : Option String) (d : String) : String :=
  match o with
  | some s => if s = "" then d else s
  | none => d

/-- The `allowed_map = {i: chunk for i, chunk in enumerate(document_chunks, 1)}`
dictionary of `answer_question`, looked up with `.get`. -/
def allowedLookup (allowed : List DocumentChunk) (i : Nat) : Option DocumentChunk :=
  if i = 0 then none else allowed[i - 1]?

/-- The `Source(...)` constructor call in the reconciliation loop of
`answer_question`. -/
def mkSource (c : DocumentChunk) : Source :=
  { ticker := c.ticker, filing_type := c.filing_type, filing_date := c.filing_date,
    «section» := pyOrStr c.«section» "Summary", url := c.source_url, chunk_id := c.chunk_id }

/-- Step 5 of `answer_question`: parse the used tags, compact-renumber the
text, and resolve each originally referenced id against the allowed map,
appending one Source per resolvable id, in first-occurrence order. -/
def reconcile (text : List Char) (allowed : List DocumentChunk) :
    List Char × List Source :=
  (compactRenumber text (parseUsedTags text),
   (parseUsedTags text).filterMap (fun i => (allowedLookup allowed i).map mkSource))

/-- Embeds `models.AnswerWithSources` with its pydantic defaults (`key_metrics`
is an association list standing for the Python dict). -/
structure AnswerWithSources where
  answer : String := ""
  confidence_score : Rat := 1 / 2
  sources : List Source := []
  citations : List String := []
  methodology : String := ""
  limitations : List String := []
  companies_analyzed : List String := []
  filing_types_used : List String := []
  time_period_covered : Option String := none
  key_metrics : List (String × String) := []
  recommendations : List String := []
  tool_used : Option String := none
  used_chunk_ids : List String := []
deriving DecidableEq

/-- The `except Exception` arm of `answer_question`: the zero-confidence
answer object built there. -/
def errorAnswer (e : String) : AnswerWithSources :=
  { answer := "Error: " ++ e,
    sources := [],
    confidence_score := 0,
    companies_analyzed := [],
    filing_types_used := [],
    limitations := ["Internal error during analysis."] }

/-- Top level of `answer_question`: the whole per-question flow is wrapped in
`try/except`; the body either produces an answer or raises, which the shallow
embedding models as `Except` (a raised exception carries its message). -/
def answerQuestion (body : Except String AnswerWithSources) : AnswerWithSources :=
  match body with
  | .ok a => a
  | .error e => errorAnswer e

/-! ## Concrete fixtures for the citation claims -/

/-- A concrete evidence chunk used in the worked examples. -/
def demoChunk (tick : String) (cid : String) : DocumentChunk :=
  { content := ['x'], ticker := tick, filing_type := "10-K",
    filing_date := "2024-01-01", «section» := some "Item 1A", chunk_id := cid,
    source_url := "https://sec.example/doc", confidence_score := 1 }

def demoAllowed : List DocumentChunk :=
  [demoChunk "AAPL" "c1", demoChunk "MSFT" "c2", demoChunk "JPM" "c3"]

def demoAllowed5 : List DocumentChunk :=
  [demoChunk "AAPL" "c1", demoChunk "MSFT" "c2", demoChunk "JPM" "c3",
   demoChunk "JNJ" "c4", demoChunk "NVDA" "c5"]

def c2Text : List Char := "A [C3] and B [C1] and [C3] again".toList

def c2Expected : List Char := "A [C1] and B [C2] and [C1] again".toList

def c1Text : List Char := "See [C99].".toList

theorem length_filterMap_eq_length_filter (f : Nat -> Option Source) :
    ∀ l : List Nat, (l.filterMap f).length = (l.filter (fun a => (f a).isSome)).length := by
  intro l
  induction l with
  | nil => rfl
  | cons a l ih =>
    cases hf : f a with
    | none => simp [List.filterMap_cons, List.filter_cons, hf, ih]
    | some b => simp [List.filterMap_cons, List.filter_cons, hf, ih]

theorem allowedLookup_isSome (allowed : List DocumentChunk) (i : Nat) :
    (allowedLookup allowed i).isSome = (decide (1 ≤ i) && decide (i ≤ allowed.length)) := by
  unfold allowedLookup
  by_cases hi : i = 0
  · subst hi; simp
  · rw [if_neg hi]
    by_cases hle : i ≤ allowed.length
    · have hlt : i - 1 < allowed.length := by omega
      rw [List.getElem?_eq_getElem hlt]
      have h1 : 1 ≤ i := by omega
      simp [h1, hle]
    · have hge : allowed.length ≤ i - 1 := by omega
      rw [List.getElem?_eq_none hge]
      simp [hle]

/-! ## Claim C1 -/

/-- C1 counterexample: the claim says a dangling tag (`[C99]` with 5 allowed
sources) is left unchanged in the rewritten text. On the code, `_parse_used_tags`
collects every `[C<n>]` with no range filter and `_compact_renumber` therefore
renumbers `[C99]` to `[C1]`; the text is changed. (The no-Source half of the
claim does hold: the sources list is empty.) -/
theorem claim_C1_counterexample :
    (reconcile c1Text demoAllowed5).1 ≠ c1Text ∧
    (reconcile c1Text demoAllowed5).1 = "See [C1].".toList ∧
    (reconcile c1Text demoAllowed5).2 = [] := by decide

/-- C1 amended: a tag `[C<n>]` with n outside 1..N is *not* left unchanged —
it participates in the first-occurrence compact renumbering like any other
tag — but it still contributes no Source entry: the number of Source entries
equals the number of parsed ids inside 1..N, and in the `[C99]`-with-5
scenario the text is rewritten to `[C1]` with an empty source list. -/
theorem claim_C1_amended :
    (∀ (t : List Char) (allowed : List DocumentChunk),
      (reconcile t allowed).2.length =
        ((parseUsedTags t).filter
          (fun i => decide (1 ≤ i) && decide (i ≤ allowed.length))).length) ∧
    (∀ allowed : List DocumentChunk, allowed.length = 5 →
      (reconcile c1Text allowed).1 = "See [C1].".toList ∧
      (reconcile c1Text allowed).2 = []) := by
  constructor
  · intro t allowed
    show ((parseUsedTags t).filterMap
        (fun i => (allowedLookup allowed i).map mkSource)).length = _
    rw [length_filterMap_eq_length_filter]
    congr 1
    apply List.filter_congr
    intro i _
    have hmap : (Option.map mkSource (allowedLookup allowed i)).isSome =
        (allowedLookup allowed i).isSome := by
      cases allowedLookup allowed i <;> rfl
    rw [hmap, allowedLookup_isSome]
  · intro allowed hlen
    constructor
    · show compactRenumber c1Text (parseUsedTags c1Text) = _
      decide
    · show ((parseUsedTags c1Text).filterMap
          (fun i => (allowedLookup allowed i).map mkSource)) = []
      have hp : parseUsedTags c1Text = [99] := by decide
      rw [hp]
      have h99 : allowedLookup allowed 99 = none := by
        unfold allowedLookup
        rw [if_neg (by omega)]
        exact List.getElem?_eq_none (by omega)
      simp [List.filterMap_cons, h99]

/-- C1 amended witness: the amended statement evaluated at the concrete
5-chunk allowed list. -/
theorem claim_C1_amended_witness :
    (reconcile c1Text demoAllowed5).1 = "See [C1].".toList ∧
    (reconcile c1Text demoAllowed5).2 = [] :=
  claim_C1_amended.2 demoAllowed5 (by decide)

/-! ## Claim C2 -/

/-- C2 (confirmed): on `"A [C3] and B [C1] and [C3] again"` with any allowed
list of size ≥ 3, the text is rewritten to `"A [C1] and B [C2] and [C1] again"`
and the sources are exactly the records for original tags 3 then 1, in order;
in general the k-th distinct referenced integer (1-based, first-occurrence
order) is mapped to k by the renumbering map, and the rewritten text's scan is
exactly the original scan with every tag occurrence rewritten through that map. -/
theorem claim_C2_renumber_roundtrip :
    (∀ (allowed : List DocumentChunk) (h : 3 ≤ allowed.length),
      (reconcile c2Text allowed).1 = c2Expected ∧
      (reconcile c2Text allowed).2 =
        [mkSource (allowed.get ⟨2, by omega⟩), mkSource (allowed.get ⟨0, by omega⟩)]) ∧
    (∀ (t : List Char) (j v : Nat), (parseUsedTags t)[j]? = some v →
      pyMapping (parseUsedTags t) v = some (1 + j)) ∧
    (∀ t : List Char, scan (compactRenumber t (parseUsedTags t)) =
      (scan t).map (mapTok (pyMapping (parseUsedTags t)))) := by
  refine ⟨?_, ?_, fun t => scan_compactRenumber t (parseUsedTags t)⟩
  · intro allowed h
    refine ⟨by show compactRenumber c2Text (parseUsedTags c2Text) = c2Expected; decide, ?_⟩
    show ((parseUsedTags c2Text).filterMap
        (fun i => (allowedLookup allowed i).map mkSource)) = _
    have hp : parseUsedTags c2Text = [3, 1] := by decide
    rw [hp]
    have h3 : allowedLookup allowed 3 = some (allowed.get ⟨2, by omega⟩) := by
      unfold allowedLookup
      rw [if_neg (by omega)]
      exact List.getElem?_eq_getElem (by omega)
    have h1 : allowedLookup allowed 1 = some (allowed.get ⟨0, by omega⟩) := by
      unfold allowedLookup
      rw [if_neg (by omega)]
      exact List.getElem?_eq_getElem (by omega)
    simp [List.filterMap_cons, h3, h1]
  · intro t j v hj
    exact pyMapping_get (parseUsedTags t) (parse_nodup t) hj

/-- C2 witness: the round trip at the concrete 3-chunk allowed list, and the
first distinct id (3) mapped to 1. -/
theorem claim_C2_witness :
    (reconcile c2Text demoAllowed).1 = c2Expected ∧
    (reconcile c2Text demoAllowed).2 =
      [mkSource (demoChunk "JPM" "c3"), mkSource (demoChunk "AAPL" "c1")] ∧
    pyMapping (parseUsedTags c2Text) 3 = some 1 := by
  obtain ⟨h1, h2⟩ := claim_C2_renumber_roundtrip.1 demoAllowed (by decide)
  refine ⟨h1, ?_, ?_⟩
  · rw [h2]; decide
  · have := claim_C2_renumber_roundtrip.2.1 c2Text 0 3 (by decide)
    simpa using this

/-! ## Claim C9 -/

/-- C9 (confirmed): citation renumbering is idempotent. For every text t, on
the once-renumbered text the parsed ids are exactly 1, 2, …, k in order, the
renumbering map built from them is the identity on each of them, and applying
parse + compact-renumber a second time returns the text unchanged. -/
theorem claim_C9_renumber_idempotent (t : List Char) :
    parseUsedTags (compactRenumber t (parseUsedTags t)) =
        List.range' 1 (parseUsedTags t).length ∧
    (∀ v ∈ parseUsedTags (compactRenumber t (parseUsedTags t)),
        pyMapping (parseUsedTags (compactRenumber t (parseUsedTags t))) v = some v) ∧
    compactRenumber (compactRenumber t (parseUsedTags t))
        (parseUsedTags (compactRenumber t (parseUsedTags t))) =
      compactRenumber t (parseUsedTags t) := by
  obtain ⟨-, h2, h3⟩ := renumber_roundtrip t
  refine ⟨h2, ?_, h3⟩
  intro v hv
  rw [h2] at hv ⊢
  have hmem : 1 ≤ v ∧ v < 1 + (parseUsedTags t).length := by
    have := List.mem_range'_1.mp hv
    omega
  exact pyMapping_range_self hmem.1 (by omega)

/-- C9 witness: idempotence evaluated on a concrete text whose tags are
out of order and repeated. -/
theorem claim_C9_witness :
    parseUsedTags (compactRenumber c2Text (parseUsedTags c2Text)) = [1, 2] ∧
    pyMapping (parseUsedTags (compactRenumber c2Text (parseUsedTags c2Text))) 2 = some 2 ∧
    compactRenumber (compactRenumber c2Text (parseUsedTags c2Text))
        (parseUsedTags (compactRenumber c2Text (parseUsedTags c2Text))) =
      compactRenumber c2Text (parseUsedTags c2Text) := by
  obtain ⟨h1, h2, h3⟩ := claim_C9_renumber_idempotent c2Text
  refine ⟨by rw [h1]; decide, ?_, h3⟩
  apply h2
  rw [h1]
  decide

/-! ## Claim C8 -/

/-- C8 (confirmed): if the per-question flow raises, `answer_question`
returns the zero-confidence answer object with empty sources, the error
description in the answer text and an explicit limitation note; if the body
returns normally its answer passes through. In the embedding the raised
exception is the `Except.error` case, so no exception escapes: the function
is total. -/
theorem claim_C8_error_path (body : Except String AnswerWithSources) :
    (∀ e : String, body = .error e →
      (answerQuestion body).confidence_score = 0 ∧
      (answerQuestion body).sources = [] ∧
      (answerQuestion body).answer = "Error: " ++ e ∧
      (answerQuestion body).limitations = ["Internal error during analysis."]) ∧
    (∀ a : AnswerWithSources, body = .ok a → answerQuestion body = a) := by
  constructor
  · rintro e rfl
    exact ⟨rfl, rfl, rfl, rfl⟩
  · rintro a rfl
    rfl

/-- C8 witness: the error path evaluated on a concrete raised message. -/
theorem claim_C8_witness :
    (answerQuestion (.error "boom")).confidence_score = 0 ∧
    (answerQuestion (.error "boom")).sources = [] ∧
    (answerQuestion (.error "boom")).answer = "Error: boom" ∧
    (answerQuestion (.error "boom")).limitations = ["Internal error during analysis."] :=
  (claim_C8_error_path (.error "boom")).1 "boom" rfl

/-! ## data_retriever.py: query analysis and the Retrieval Strategy Selector -/

/-- Embeds `models.QueryAnalysis` (query_type is one of the six labels; it is kept
as a plain string since the code compares it by equality). -/
structure QueryAnalysis where
  tickers : List String := []
  time_periods : List String := []
  document_types : List String := []
  query_type : String := "single_ticker"
  sectors : List String := []
  keywords : List String := []
  suggested_tickers : List String := []
deriving DecidableEq

/-- Python `str.lower` (ASCII; the keyword literals compared against are ASCII). -/
def pyLower (s : String) : String := String.mk (s.toList.map Char.toLower)

/-- Python `str.upper` (ASCII). -/
def pyUpper (s : String) : String := String.mk (s.toList.map Char.toUpper)

/-- Does `hay` start with `needle`? -/
def headMatch : List Char → List Char → Bool
  | [], _ => true
  | _ :: _, [] => false
  | a :: as, b :: bs => a == b && headMatch as bs

/-- Python `needle in hay` substring containment. -/
def isSubstr (needle : List Char) : List Char → Bool
  | [] => needle.isEmpty
  | c :: cs => headMatch needle (c :: cs) || isSubstr needle cs

/-- Embeds `kw = " ".join(analysis.keywords or []).lower()`. -/
def kwString (a : QueryAnalysis) : List Char :=
  (pyLower (String.intercalate " " a.keywords)).toList

/-- Embeds the check `'<w>' in kw`. -/
def hasKw (a : QueryAnalysis) (w : String) : Bool := isSubstr w.toList (kwString a)

/-- Embeds `docset = set(d.upper() for d in (analysis.document_types or []))`,
kept as a list (membership is all the code uses). -/
def docset (a : QueryAnalysis) : List String := a.document_types.map pyUpper

def docsetHas (a : QueryAnalysis) (f : String) : Bool := (docset a).contains f

/-- Embeds `EnhancedSECDataRetriever._get_default_companies`. -/
def getDefaultCompanies (a : QueryAnalysis) : List String :=
  if hasKw a "financial" then ["JPM"]
  else if hasKw a "healthcare" then ["JNJ"]
  else ["AAPL"]

/-- The `companies` binding of `_determine_retrieval_strategy`:
`analysis.tickers[:2] if analysis.tickers else self._get_default_companies(analysis)[:2]`. -/
def companiesOf (a : QueryAnalysis) : List String :=
  if a.tickers.isEmpty then (getDefaultCompanies a).take 2 else a.tickers.take 2

structure RetrievalTarget where
  ticker : String
  filing_type : String
  sections : List String
deriving DecidableEq

structure Strategy where
  description : String
  reason : String
  targets : List RetrievalTarget
deriving DecidableEq

/-- Embeds `sorted((docset & {'3','4','5'}), key=lambda x: {'4':0,'3':1,'5':2}[x])`:
the sort keys are distinct, so the result is exactly the present forms in the
order 4, 3, 5. -/
def insiderReq (a : QueryAnalysis) : List String :=
  ["4", "3", "5"].filter (fun f => (docset a).contains f)

/-- Embeds `EnhancedSECDataRetriever._determine_retrieval_strategy`: the first-match
decision ladder over the query analysis. -/
def determineRetrievalStrategy (a : QueryAnalysis) (allowDefault : Bool) : Strategy :=
  let companies := companiesOf a
  if !(insiderReq a).isEmpty || hasKw a "insider" || hasKw a "trading" then
    { description := "Insider trading targeted", reason := "explicit_form_or_keyword",
      targets := ((companies.take 2).map (fun c =>
        (if (insiderReq a).isEmpty then ["4"] else insiderReq a).map
          (fun f => { ticker := c, filing_type := f, sections := [] }))).flatten }
  else if docsetHas a "10-K" || hasKw a "risk" || hasKw a "factor" then
    { description := "10-K Risk factors (Item 1A)", reason := "explicit_form_or_keyword",
      targets := (companies.take 2).map
        (fun c => { ticker := c, filing_type := "10-K", sections := ["1A"] }) }
  else if docsetHas a "10-Q" || hasKw a "md&a" || hasKw a "management discussion" then
    { description := "10-Q MD&A (part1item2)", reason := "explicit_form_or_keyword",
      targets := (companies.take 2).map
        (fun c => { ticker := c, filing_type := "10-Q", sections := ["part1item2"] }) }
  else if docsetHas a "DEF 14A" || hasKw a "compensation" || hasKw a "proxy" then
    { description := "Proxy / compensation", reason := "explicit_form_or_keyword",
      targets := (companies.take 2).map
        (fun c => { ticker := c, filing_type := "DEF 14A", sections := [] }) }
  else if a.query_type = "multi_ticker_comparison" then
    { description := "Multi-company comparison (10-K 1A)", reason := "query_type",
      targets := companies.map
        (fun c => { ticker := c, filing_type := "10-K", sections := ["1A"] }) }
  else if allowDefault then
    { description := "Default targeted (single 10-K 1A)", reason := "default",
      targets := [{ ticker := companies.headD "", filing_type := "10-K", sections := ["1A"] }] }
  else
    { description := "No matching rule", reason := "no_match", targets := [] }

theorem companiesOf_length_le (a : QueryAnalysis) : (companiesOf a).length ≤ 2 := by
  unfold companiesOf
  split
  · exact le_trans (List.length_take_le ..) (by simp)
  · exact le_trans (List.length_take_le ..) (by simp)

/-! ## Claim C4 -/

def c4Analysis : QueryAnalysis :=
  { tickers := ["AAA", "BBB", "CCC"], query_type := "multi_ticker_comparison" }

/-- C4 counterexample: the claim says the multi-ticker rule targets *every*
company of the query's ticker list with no 2-company cap. With three tickers
and the comparison query type, the code emits targets only for the first two
tickers: `companies` is already truncated to two at its construction. -/
theorem claim_C4_counterexample :
    c4Analysis.tickers.length = 3 ∧
    ((determineRetrievalStrategy c4Analysis false).targets.map
      (fun t => t.ticker)) = ["AAA", "BBB"] ∧
    "CCC" ∉ (determineRetrievalStrategy c4Analysis false).targets.map
      (fun t => t.ticker) := by decide

/-- C4 amended: when none of the earlier selector rules fires and the
query-type label is `multi_ticker_comparison`, the rule emits one
(company, "10-K", ["1A"]) target per company of the *capped* companies list
(the query's tickers truncated to the first 2), with reason `query_type`;
the rule itself adds no further cap, but the target list never exceeds 2. -/
theorem claim_C4_amended (a : QueryAnalysis) (allowDefault : Bool)
    (h1 : (!(insiderReq a).isEmpty || hasKw a "insider" || hasKw a "trading") = false)
    (h2 : (docsetHas a "10-K" || hasKw a "risk" || hasKw a "factor") = false)
    (h3 : (docsetHas a "10-Q" || hasKw a "md&a" || hasKw a "management discussion") = false)
    (h4 : (docsetHas a "DEF 14A" || hasKw a "compensation" || hasKw a "proxy") = false)
    (h5 : a.query_type = "multi_ticker_comparison") :
    (determineRetrievalStrategy a allowDefault).targets =
      (companiesOf a).map
        (fun c => { ticker := c, filing_type := "10-K", sections := ["1A"] }) ∧
    (determineRetrievalStrategy a allowDefault).reason = "query_type" ∧
    (determineRetrievalStrategy a allowDefault).targets.length ≤ 2 := by
  unfold determineRetrievalStrategy
  rw [h1, h2, h3, h4]
  simp only [Bool.false_eq_true, if_false, if_pos h5]
  exact ⟨by trivial, by trivial, by simpa using companiesOf_length_le a⟩

/-- C4 amended witness: the amended rule evaluated on the three-ticker
comparison query. -/
theorem claim_C4_amended_witness :
    (determineRetrievalStrategy c4Analysis false).targets =
      (companiesOf c4Analysis).map
        (fun c => { ticker := c, filing_type := "10-K", sections := ["1A"] }) ∧
    (determineRetrievalStrategy c4Analysis false).reason = "query_type" ∧
    (determineRetrievalStrategy c4Analysis false).targets.length ≤ 2 :=
  claim_C4_amended c4Analysis false (by decide) (by decide) (by decide) (by decide) rfl

/-! ## Claim C10 -/

/-- C10 (confirmed): `_get_default_companies` always returns one of the
non-empty lists `["JPM"]`, `["JNJ"]`, `["AAPL"]`, so the `companies` sequence
of `_determine_retrieval_strategy` is never empty even without tickers, and
the default rule's `companies[0]` access (modelled as `headD`) cannot fail. -/
theorem claim_C10_default_companies_nonempty (a : QueryAnalysis) :
    getDefaultCompanies a ≠ [] ∧
    (getDefaultCompanies a = ["JPM"] ∨ getDefaultCompanies a = ["JNJ"] ∨
      getDefaultCompanies a = ["AAPL"]) ∧
    companiesOf a ≠ [] := by
  refine ⟨?_, ?_, ?_⟩
  · unfold getDefaultCompanies
    split
    · simp
    · split <;> simp
  · unfold getDefaultCompanies
    split
    · exact Or.inl rfl
    · split
      · exact Or.inr (Or.inl rfl)
      · exact Or.inr (Or.inr rfl)
  · unfold companiesOf
    split
    · unfold getDefaultCompanies
      split
      · simp
      · split <;> simp
    · rename_i hne
      have : a.tickers ≠ [] := by
        intro h
        rw [h] at hne
        simp at hne
      simp [List.take_eq_nil_iff, this]

/-! ## Targeted Fetchers (data_retriever.py), with external responses as data -/

/-- Python whitespace stripped by `str.strip()` (ASCII subset). -/
def pyWS (c : Char) : Bool :=
  c == ' ' || c == '\t' || c == '\n' || c == '\r' || c == '\x0b' || c == '\x0c'

/-- Python `str.strip()`. -/
def pyStrip (l : List Char) : List Char :=
  ((l.dropWhile pyWS).reverse.dropWhile pyWS).reverse

/-- Python truthiness of an optional string (`None` and `""` are falsy). -/
def pyTruthy (o : Option String) : Bool :=
  match o with
  | some s => !(s == "")
  | none => false

/-- Python `a or b` on optional strings. -/
def pyOrOpt (a b : Option String) : Option String := if pyTruthy a then a else b

/-- Python `s[:10]` used on `filedAt` values. -/
def take10 (s : String) : String := String.mk (s.toList.take 10)

/-- Filing metadata from the full-text search response, as used by the
structured and general targeted fetchers. -/
structure Filing where
  linkToHtml : Option String := none
  linkToTxt : Option String := none
  filedAt : String := ""
  companyName : Option String := none
  description : Option String := none
  linkToFilingDetails : Option String := none
deriving DecidableEq

/-- The `text`-shaping step of `_fetch_structured_targeted`: strip, then
truncate with an ellipsis marker when longer than 1500 characters. -/
def structuredContent (extractText : List Char) : List Char :=
  if (pyStrip extractText).length > 1500 then
    (pyStrip extractText).take 1500 ++ "...".toList
  else pyStrip extractText

/-- Embeds `EnhancedSECDataRetriever._fetch_structured_targeted`, with the two HTTP
round trips replaced by their pre-parsed outcomes: the search status and
filing list, and the extractor status and raw text. Any exception collapses
to the empty chunk list exactly as the `except` clause does. -/
def fetchStructuredTargeted (ticker form : String) (sections : List String)
    (searchStatus : Nat) (filings : List Filing)
    (extractStatus : Nat) (extractText : List Char) : List DocumentChunk :=
  if searchStatus ≠ 200 then [] else
  match filings with
  | [] => []
  | filing :: _ =>
    let link := pyOrOpt filing.linkToHtml filing.linkToTxt
    if !pyTruthy link || sections.isEmpty then [] else
    let sec := sections.headD ""
    if extractStatus ≠ 200 then [] else
    if (pyStrip extractText).length < 200 then [] else
    [{ content := structuredContent extractText, ticker := ticker, filing_type := form,
       filing_date := take10 filing.filedAt, «section» := some ("Item " ++ sec),
       chunk_id := ticker ++ "_" ++ form ++ "_" ++ sec ++ "_targeted",
       source_url := link.getD "", confidence_score := 1 }]

/-- Embeds the `amt.get('acquiredDisposedCode')` rendering in `_fetch_insider_targeted`
(line `act = "Acquired" if ... == 'A' else "Disposed"`). -/
def insiderActTargeted (code : Option String) : String :=
  if code = some "A" then "Acquired" else "Disposed"

/-- The same rendering in `_format_insider_filing`
(`"Acquired" if ... == 'A' else "Disposed" if ... == 'D' else acq_disp`,
with default `'Unknown'`). -/
def insiderActFormat (code : Option String) : String :=
  let c := code.getD "Unknown"
  if c = "A" then "Acquired" else if c = "D" then "Disposed" else c

/-- One non-derivative transaction. The Python code reads the float fields
`shares` and `pricePerShare` only to render them into the line and to sum the
products into a total; the embedding carries the rendered number strings and
the sign of the total instead of IEEE floats. `parseOk` models the
`try/except` around `float(...)` (a failing transaction is skipped). -/
structure InsiderTx where
  parseOk : Bool := true
  sharesStr : List Char := []
  priceStr : List Char := []
  valueStr : List Char := []
  acquiredDisposedCode : Option String := none
deriving DecidableEq

/-- One insider transaction filing from the insider-trading API response. -/
structure InsiderFiling where
  reportingOwnerName : Option String := none
  filedAt : String := ""
  nonDerivative : List InsiderTx := []
  totalPos : Bool := false
  totalStr : List Char := []
  linkToFilingDetails : Option String := none
deriving DecidableEq

/-- The transaction line `f"- {act} {sh:,.0f} @ ${px:.2f} (${val:,.0f})"`. -/
def insiderTxLine (t : InsiderTx) : List Char :=
  "- ".toList ++ (insiderActTargeted t.acquiredDisposedCode).toList ++ [' '] ++
    t.sharesStr ++ " @ $".toList ++ t.priceStr ++ " ($".toList ++ t.valueStr ++ [')']

/-- Python `"\n".join(lines)`. -/
def joinNL : List (List Char) → List Char
  | [] => []
  | [l] => l
  | l :: l' :: ls => l ++ '\n' :: joinNL (l' :: ls)

/-- The `lines` built and joined by `_fetch_insider_targeted`: header block,
up to 2 parseable non-derivative transaction lines, and the total line when
the summed value is positive. -/
def insiderContent (ticker : String) (filing : InsiderFiling) : List Char :=
  joinNL
    ([("Recent Insider Trading - " ++ ticker).toList,
      ("Person: " ++ filing.reportingOwnerName.getD "Unknown Person").toList,
      ("Filed: " ++ take10 filing.filedAt).toList,
      ([] : List Char)] ++
     ((filing.nonDerivative.take 2).filter (fun t => t.parseOk)).map insiderTxLine ++
     (if filing.totalPos then ['\n' :: ("Total Value: $".toList ++ filing.totalStr)]
      else []))

/-- Embeds `EnhancedSECDataRetriever._fetch_insider_targeted`, with the HTTP round
trip replaced by its pre-parsed outcome (status and transaction list). -/
def fetchInsiderTargeted (ticker form : String) (status : Nat)
    (txs : List InsiderFiling) : List DocumentChunk :=
  if status ≠ 200 then [] else
  match txs with
  | [] => []
  | filing :: _ =>
    if (insiderContent ticker filing).isEmpty then [] else
    [{ content := (insiderContent ticker filing).take 1200, ticker := ticker,
       filing_type := form, filing_date := take10 filing.filedAt,
       «section» := some ("Insider Filing - " ++ filing.reportingOwnerName.getD "Unknown Person"),
       chunk_id := ticker ++ "_" ++ form ++ "_targeted",
       source_url := filing.linkToFilingDetails.getD "", confidence_score := 1 }]

/-- Embeds `EnhancedSECDataRetriever._section_name`. -/
def sectionName (form : String) : String :=
  if form = "8-K" then "Material Event"
  else if form = "DEF 14A" then "Proxy Statement"
  else if form = "3" then "Initial Statement of Ownership"
  else if form = "4" then "Statement of Changes in Ownership"
  else if form = "5" then "Annual Statement of Ownership"
  else form ++ " Filing"

/-- The fixed tail of the general-filing summary template. -/
def generalTail : List Char :=
  "...\n\nThis filing contains material information relevant to the query.".toList

/-- The summary content built by `_fetch_general_targeted`. -/
def generalContent (form : String) (f : Filing) : List Char :=
  (form ++ " Filing - " ++ f.companyName.getD "Unknown Company" ++
    "\nDate: " ++ take10 f.filedAt ++ "\nSummary: ").toList ++
    (f.description.getD (form ++ " filing")).toList.take 180 ++ generalTail

/-- Embeds `EnhancedSECDataRetriever._fetch_general_targeted`, with the HTTP round
trip replaced by its pre-parsed outcome. -/
def fetchGeneralTargeted (ticker form : String) (status : Nat)
    (filings : List Filing) : List DocumentChunk :=
  if status ≠ 200 then [] else
  match filings with
  | [] => []
  | f :: _ =>
    [{ content := generalContent form f, ticker := ticker, filing_type := form,
       filing_date := take10 f.filedAt, «section» := some (sectionName form),
       chunk_id := ticker ++ "_" ++ form ++ "_targeted",
       source_url := f.linkToFilingDetails.getD "", confidence_score := 4/5 }]

/-! ## Claim C3 -/

def c3Filing : Filing :=
  { linkToHtml := some "https://sec.example/aapl-10k", filedAt := "2024-02-02T00:00:00" }

/-- C3 counterexample: the claim says the Targeted Fetcher never returns
content longer than 1500 characters and that over-long structured text is
truncated to 1500 characters with an ellipsis marker appended. Both cannot
hold at once: the code computes `text[:1500] + "..."`, which is 1503
characters. A 1501-character extraction yields a chunk of content length
1503 > 1500. -/
theorem claim_C3_counterexample :
    ((fetchStructuredTargeted "AAPL" "10-K" ["1A"] 200 [c3Filing] 200
        (List.replicate 1501 'a')).map (fun ch => ch.content.length)) = [1503] ∧
    ¬ (1503 ≤ 1500) := by decide

/-- C3 amended: the insider and structured targeted fetchers never return a
chunk with content length 0; insider content is capped at 1200 characters;
structured content lies between 200 and 1503 characters (1500 plus the
3-character ellipsis marker), stripped text under 200 characters yields no
record, and stripped text over 1500 characters yields exactly
`text[:1500] + "..."`; the general fetcher returns non-empty content but
applies no upper cap of its own. -/
theorem claim_C3_amended :
    (∀ (ticker form : String) (status : Nat) (txs : List InsiderFiling),
      ∀ ch ∈ fetchInsiderTargeted ticker form status txs,
        0 < ch.content.length ∧ ch.content.length ≤ 1200) ∧
    (∀ (ticker form : String) (sections : List String) (s e : Nat)
        (filings : List Filing) (text : List Char),
      ∀ ch ∈ fetchStructuredTargeted ticker form sections s filings e text,
        200 ≤ ch.content.length ∧ ch.content.length ≤ 1503) ∧
    (∀ (ticker form : String) (sections : List String) (s e : Nat)
        (filings : List Filing) (text : List Char),
      (pyStrip text).length < 200 →
      fetchStructuredTargeted ticker form sections s filings e text = []) ∧
    (∀ (ticker form : String) (sections : List String) (s e : Nat)
        (filings : List Filing) (text : List Char),
      1500 < (pyStrip text).length →
      ∀ ch ∈ fetchStructuredTargeted ticker form sections s filings e text,
        ch.content = (pyStrip text).take 1500 ++ "...".toList) ∧
    (∀ (ticker form : String) (status : Nat) (filings : List Filing),
      ∀ ch ∈ fetchGeneralTargeted ticker form status filings,
        0 < ch.content.length) := by
  refine ⟨?_, ?_, ?_, ?_, ?_⟩
  · intro ticker form status txs ch hch
    unfold fetchInsiderTargeted at hch
    split at hch
    · simp at hch
    · cases txs with
      | nil => simp at hch
      | cons filing rest =>
        simp only [] at hch
        by_cases hemp : (insiderContent ticker filing).isEmpty
        · rw [if_pos hemp] at hch
          simp at hch
        · rw [if_neg hemp] at hch
          simp only [List.mem_singleton] at hch
          subst hch
          have hpos : 0 < (insiderContent ticker filing).length := by
            cases hi : insiderContent ticker filing with
            | nil => rw [hi] at hemp; simp at hemp
            | cons x xs => simp
          show 0 < ((insiderContent ticker filing).take 1200).length ∧
              ((insiderContent ticker filing).take 1200).length ≤ 1200
          simp only [List.length_take]
          omega
  · intro ticker form sections s e filings text ch hch
    unfold fetchStructuredTargeted at hch
    split at hch
    · simp at hch
    · cases filings with
      | nil => simp at hch
      | cons filing rest =>
        simp only [] at hch
        split at hch
        · simp at hch
        · split at hch
          · simp at hch
          · split at hch
            · simp at hch
            · rename_i hlen
              simp only [List.mem_singleton] at hch
              subst hch
              show 200 ≤ (structuredContent text).length ∧
                  (structuredContent text).length ≤ 1503
              have h3 : ("...".toList : List Char).length = 3 := rfl
              unfold structuredContent
              split
              · simp only [List.length_append, List.length_take, h3]
                omega
              · rename_i hgt
                omega
  · intro ticker form sections s e filings text htext
    unfold fetchStructuredTargeted
    split
    · rfl
    · cases filings with
      | nil => rfl
      | cons filing rest =>
        simp [htext]
  · intro ticker form sections s e filings text htext ch hch
    unfold fetchStructuredTargeted at hch
    split at hch
    · simp at hch
    · cases filings with
      | nil => simp at hch
      | cons filing rest =>
        simp only [] at hch
        split at hch
        · simp at hch
        · split at hch
          · simp at hch
          · split at hch
            · simp at hch
            · simp only [List.mem_singleton] at hch
              subst hch
              show structuredContent text = (pyStrip text).take 1500 ++ "...".toList
              unfold structuredContent
              rw [if_pos htext]
  · intro ticker form status filings ch hch
    unfold fetchGeneralTargeted at hch
    split at hch
    · simp at hch
    · cases filings with
      | nil => simp at hch
      | cons f rest =>
        simp only [List.mem_singleton] at hch
        subst hch
        show 0 < (generalContent form f).length
        unfold generalContent
        simp only [List.length_append]
        have hg : 0 < generalTail.length := by decide
        omega

def c3InsiderFiling : InsiderFiling :=
  { reportingOwnerName := some "Jane Roe", filedAt := "2024-03-03T00:00:00",
    nonDerivative := [{ parseOk := true, sharesStr := "1,000".toList,
                        priceStr := "5.00".toList, valueStr := "5,000".toList,
                        acquiredDisposedCode := some "A" }],
    totalPos := true, totalStr := "5,000".toList }

def c3GeneralFiling : Filing :=
  { filedAt := "2024-04-04T00:00:00", companyName := some "Apple Inc.",
    description := some "Material event report",
    linkToFilingDetails := some "https://sec.example/8k" }

/-- C3 amended witness: each bound evaluated on a concrete fetch. -/
theorem claim_C3_amended_witness :
    (0 < ((fetchInsiderTargeted "AAPL" "4" 200 [c3InsiderFiling]).get
        ⟨0, by decide⟩).content.length ∧
      ((fetchInsiderTargeted "AAPL" "4" 200 [c3InsiderFiling]).get
        ⟨0, by decide⟩).content.length ≤ 1200) ∧
    (200 ≤ ((fetchStructuredTargeted "AAPL" "10-K" ["1A"] 200 [c3Filing] 200
        (List.replicate 1501 'a')).get ⟨0, by decide⟩).content.length ∧
      ((fetchStructuredTargeted "AAPL" "10-K" ["1A"] 200 [c3Filing] 200
        (List.replicate 1501 'a')).get ⟨0, by decide⟩).content.length ≤ 1503) ∧
    fetchStructuredTargeted "AAPL" "10-K" ["1A"] 200 [c3Filing] 200 [] = [] ∧
    ((fetchStructuredTargeted "AAPL" "10-K" ["1A"] 200 [c3Filing] 200
        (List.replicate 1501 'a')).get ⟨0, by decide⟩).content =
      (pyStrip (List.replicate 1501 'a')).take 1500 ++ "...".toList ∧
    0 < ((fetchGeneralTargeted "AAPL" "8-K" 200 [c3GeneralFiling]).get
        ⟨0, by decide⟩).content.length := by
  refine ⟨?_, ?_, ?_, ?_, ?_⟩
  · exact claim_C3_amended.1 "AAPL" "4" 200 [c3InsiderFiling] _ (List.get_mem ..)
  · exact claim_C3_amended.2.1 "AAPL" "10-K" ["1A"] 200 200 [c3Filing]
      (List.replicate 1501 'a') _ (List.get_mem ..)
  · exact claim_C3_amended.2.2.1 "AAPL" "10-K" ["1A"] 200 200 [c3Filing] [] (by decide)
  · exact claim_C3_amended.2.2.2.1 "AAPL" "10-K" ["1A"] 200 200 [c3Filing]
      (List.replicate 1501 'a') (by decide) _ (List.get_mem ..)
  · exact claim_C3_amended.2.2.2.2 "AAPL" "8-K" 200 [c3GeneralFiling] _ (List.get_mem ..)

/-! ## Claim C5 -/

def c5Filing : InsiderFiling :=
  { reportingOwnerName := some "Jane Roe", filedAt := "2024-03-03T00:00:00",
    nonDerivative := [{ parseOk := true, sharesStr := "100".toList,
                        priceStr := "5.00".toList, valueStr := "500".toList,
                        acquiredDisposedCode := some "ZZ" }] }

/-- C5 counterexample: the claim says the insider-class Targeted Fetcher
passes any code other than 'A'/'D' through verbatim into the record content.
The targeted fetcher renders every non-'A' code as "Disposed": with code
"ZZ" the produced content contains "Disposed" and does not contain "ZZ". -/
theorem claim_C5_counterexample :
    insiderActTargeted (some "ZZ") = "Disposed" ∧
    ("ZZ" : String) ≠ "Disposed" ∧
    ((fetchInsiderTargeted "AAPL" "4" 200 [c5Filing]).map
      (fun ch => isSubstr "Disposed".toList ch.content)) = [true] ∧
    ((fetchInsiderTargeted "AAPL" "4" 200 [c5Filing]).map
      (fun ch => isSubstr "ZZ".toList ch.content)) = [false] := by decide

/-- C5 amended: in the *targeted* insider fetcher, 'A' renders as "Acquired"
and every other code — including unknown codes — renders as "Disposed"; the
verbatim pass-through of unknown codes exists only in the general-path
formatter `_format_insider_filing`, which renders 'A' as "Acquired", 'D' as
"Disposed", any other present code verbatim, and a missing code as
"Unknown". -/
theorem claim_C5_amended :
    insiderActTargeted (some "A") = "Acquired" ∧
    insiderActTargeted (some "D") = "Disposed" ∧
    (∀ c : Option String, c ≠ some "A" → insiderActTargeted c = "Disposed") ∧
    insiderActFormat (some "A") = "Acquired" ∧
    insiderActFormat (some "D") = "Disposed" ∧
    (∀ s : String, s ≠ "A" → s ≠ "D" → insiderActFormat (some s) = s) ∧
    insiderActFormat none = "Unknown" := by
  refine ⟨rfl, rfl, ?_, rfl, rfl, ?_, rfl⟩
  · intro c hc
    unfold insiderActTargeted
    rw [if_neg hc]
  · intro s h1 h2
    unfold insiderActFormat
    simp only [Option.getD_some]
    rw [if_neg h1, if_neg h2]

/-- C5 amended witness: the two renderings evaluated at the unknown
code "X". -/
theorem claim_C5_amended_witness :
    insiderActTargeted (some "X") = "Disposed" ∧ insiderActFormat (some "X") = "X" :=
  ⟨claim_C5_amended.2.2.1 (some "X") (by decide),
   claim_C5_amended.2.2.2.2.2.1 "X" (by decide) (by decide)⟩

/-! ## Evidence cache: _retrieve_documents of qa_system.py -/

/-- The cache key `f"{company}_{'-'.join(document_types)}_{date_from or 'recent'}"`
— the document types are joined in the order given, not sorted. -/
def cacheKey (company : String) (docTypes : List String) (dateFrom : Option String) :
    String :=
  company ++ "_" ++ String.intercalate "-" docTypes ++ "_" ++ dateFrom.getD "recent"

/-- The `date_from` derivation of `_retrieve_documents`: the first 4-digit
period becomes `f"{period}-01-01"`. -/
def dateFromOf (a : QueryAnalysis) : Option String :=
  (a.time_periods.find? (fun p => p.toList.all Char.isDigit && p.length == 4)).map
    (fun p => p ++ "-01-01")

/-- Embeds `EnhancedSECQASystem._get_default_document_types`. -/
def defaultDocumentTypes (a : QueryAnalysis) : List String :=
  if hasKw a "insider" || hasKw a "trading" || hasKw a "purchase" || hasKw a "sale" then
    ["4", "3", "5"]
  else if hasKw a "compensation" || hasKw a "executive" || hasKw a "salary" ||
      hasKw a "pay" then
    ["DEF 14A"]
  else if hasKw a "acquisition" || hasKw a "merger" || hasKw a "material" ||
      hasKw a "event" then
    ["8-K"]
  else if hasKw a "risk" || hasKw a "factor" || hasKw a "business" then
    ["10-K"]
  else if hasKw a "quarterly" || hasKw a "q1" || hasKw a "q2" || hasKw a "q3" ||
      hasKw a "q4" then
    ["10-Q"]
  else ["10-K", "10-Q"]

/-- Embeds `document_types = analysis.document_types or self._get_default_document_types(...)`. -/
def effectiveDocTypes (a : QueryAnalysis) : List String :=
  if a.document_types.isEmpty then defaultDocumentTypes a else a.document_types

/-- State threaded by the `for company in companies` loop of
`_retrieve_documents`. `calls` counts fetcher invocations; it is
instrumentation for the call-count property, not program state. -/
structure RetrieveState where
  cache : List (String × List DocumentChunk)
  missing : List String
  chunks : List DocumentChunk
  calls : Nat
deriving DecidableEq

/-- One iteration of the `_retrieve_documents` loop: consult the cache;
on a miss invoke the fetcher, store the result only when non-empty and
record the company as missing otherwise. -/
def retrieveStep (fetch : String → List String → Option String → List DocumentChunk)
    (docTypes : List String) (dateFrom : Option String)
    (st : RetrieveState) (company : String) : RetrieveState :=
  match st.cache.lookup (cacheKey company docTypes dateFrom) with
  | some cached => { st with chunks := st.chunks ++ cached }
  | none =>
    if (fetch company docTypes dateFrom).isEmpty then
      { st with missing := st.missing ++ [company], calls := st.calls + 1 }
    else
      { cache := (cacheKey company docTypes dateFrom, fetch company docTypes dateFrom)
          :: st.cache,
        missing := st.missing,
        chunks := st.chunks ++ fetch company docTypes dateFrom,
        calls := st.calls + 1 }

/-- Embeds `EnhancedSECQASystem._retrieve_documents` (`missing_companies` is reset
on entry; the document cache persists across calls and is passed in). The
fetcher stands for `self.data_retriever.fetch_filings(company, document_types,
date_from, limit=3)`. -/
def retrieveDocuments (fetch : String → List String → Option String → List DocumentChunk)
    (companies : List String) (a : QueryAnalysis)
    (cache₀ : List (String × List DocumentChunk)) : RetrieveState :=
  companies.foldl (retrieveStep fetch (effectiveDocTypes a) (dateFromOf a))
    { cache := cache₀, missing := [], chunks := [], calls := 0 }

/-! ## Claim C6 -/

def c6AnalysisA : QueryAnalysis := { document_types := ["10-Q", "10-K"] }

def c6AnalysisB : QueryAnalysis := { document_types := ["10-K", "10-Q"] }

def c6Chunk : DocumentChunk :=
  { content := ['x'], ticker := "AAPL", filing_type := "10-K",
    filing_date := "2024-01-01", «section» := none, chunk_id := "k",
    source_url := "", confidence_score := 1 }

def c6Fetch : String → List String → Option String → List DocumentChunk :=
  fun _ _ _ => [c6Chunk]

/-- C6 counterexample: the claim says the cache key uses the *sorted*
document-type list. The code joins the list in the order given: the same
company and document-type set in two different orders yields two different
keys, and a second retrieval that would hit the cache under a sorted key
invokes the fetcher again (its call count is 1, not 0). -/
theorem claim_C6_counterexample :
    cacheKey "AAPL" ["10-Q", "10-K"] none ≠ cacheKey "AAPL" ["10-K", "10-Q"] none ∧
    (["10-Q", "10-K"] : List String).Perm ["10-K", "10-Q"] ∧
    (retrieveDocuments c6Fetch ["AAPL"] c6AnalysisB
        (retrieveDocuments c6Fetch ["AAPL"] c6AnalysisA []).cache).calls = 1 := by
  refine ⟨by decide, List.Perm.swap "10-K" "10-Q" [], by decide⟩

/-- C6 amended: the cache key is the composite (company, document-type list
*in the given order* joined with "-", date-floor-or-"recent"); only non-empty
fetch results are stored; a company whose fetch returns empty is recorded in
the missing list and nothing is cached for it; a lookup that hits the cache
returns the cached sequence unchanged without invoking the fetcher; and
processing the same key twice fetches exactly once. -/
theorem claim_C6_amended :
    (∀ (fetch : String → List String → Option String → List DocumentChunk)
        (dt : List String) (df : Option String) (st : RetrieveState)
        (company : String) (cached : List DocumentChunk),
      st.cache.lookup (cacheKey company dt df) = some cached →
      retrieveStep fetch dt df st company = { st with chunks := st.chunks ++ cached }) ∧
    (∀ fetch dt df (st : RetrieveState) company,
      st.cache.lookup (cacheKey company dt df) = none →
      (fetch company dt df).isEmpty = true →
      retrieveStep fetch dt df st company =
        { st with missing := st.missing ++ [company], calls := st.calls + 1 }) ∧
    (∀ fetch dt df (st : RetrieveState) company,
      st.cache.lookup (cacheKey company dt df) = none →
      (fetch company dt df).isEmpty = false →
      retrieveStep fetch dt df st company =
        { cache := (cacheKey company dt df, fetch company dt df) :: st.cache,
          missing := st.missing, chunks := st.chunks ++ fetch company dt df,
          calls := st.calls + 1 }) ∧
    (∀ fetch dt df (st : RetrieveState) company,
      st.cache.lookup (cacheKey company dt df) = none →
      (fetch company dt df).isEmpty = false →
      retrieveStep fetch dt df (retrieveStep fetch dt df st company) company =
        { cache := (cacheKey company dt df, fetch company dt df) :: st.cache,
          missing := st.missing,
          chunks := (st.chunks ++ fetch company dt df) ++ fetch company dt df,
          calls := st.calls + 1 }) ∧
    cacheKey "AAPL" ["10-Q", "10-K"] none ≠ cacheKey "AAPL" ["10-K", "10-Q"] none := by
  refine ⟨?_, ?_, ?_, ?_, by decide⟩
  · intro fetch dt df st company cached h
    unfold retrieveStep
    rw [h]
  · intro fetch dt df st company h hemp
    unfold retrieveStep
    rw [h]
    simp only [hemp, if_true]
  · intro fetch dt df st company h hemp
    unfold retrieveStep
    rw [h]
    simp only [hemp, Bool.false_eq_true, if_false]
  · intro fetch dt df st company h hemp
    have step1 : retrieveStep fetch dt df st company =
        { cache := (cacheKey company dt df, fetch company dt df) :: st.cache,
          missing := st.missing, chunks := st.chunks ++ fetch company dt df,
          calls := st.calls + 1 } := by
      unfold retrieveStep
      rw [h]
      simp only [hemp, Bool.false_eq_true, if_false]
    rw [step1]
    unfold retrieveStep
    simp [List.lookup]

/-- C6 amended witness: the hit, miss-empty, miss-nonempty and fetch-once
behaviours evaluated on concrete states. -/
theorem claim_C6_amended_witness :
    retrieveStep c6Fetch ["10-K"] none
        { cache := [(cacheKey "AAPL" ["10-K"] none, [c6Chunk])],
          missing := [], chunks := [], calls := 0 } "AAPL" =
      { cache := [(cacheKey "AAPL" ["10-K"] none, [c6Chunk])],
        missing := [], chunks := [c6Chunk], calls := 0 } ∧
    retrieveStep (fun _ _ _ => []) ["10-K"] none
        { cache := [], missing := [], chunks := [], calls := 0 } "AAPL" =
      { cache := [], missing := ["AAPL"], chunks := [], calls := 1 } ∧
    retrieveStep c6Fetch ["10-K"] none
        { cache := [], missing := [], chunks := [], calls := 0 } "AAPL" =
      { cache := [(cacheKey "AAPL" ["10-K"] none, [c6Chunk])],
        missing := [], chunks := [c6Chunk], calls := 1 } ∧
    retrieveStep c6Fetch ["10-K"] none
        (retrieveStep c6Fetch ["10-K"] none
          { cache := [], missing := [], chunks := [], calls := 0 } "AAPL") "AAPL" =
      { cache := [(cacheKey "AAPL" ["10-K"] none, [c6Chunk])],
        missing := [], chunks := [c6Chunk] ++ [c6Chunk], calls := 1 } := by
  refine ⟨?_, ?_, ?_, ?_⟩
  · exact claim_C6_amended.1 c6Fetch ["10-K"] none _ "AAPL" [c6Chunk] (by decide)
  · exact claim_C6_amended.2.1 (fun _ _ _ => []) ["10-K"] none _ "AAPL" (by decide) rfl
  · exact claim_C6_amended.2.2.1 c6Fetch ["10-K"] none _ "AAPL" (by decide) rfl
  · have := claim_C6_amended.2.2.2.1 c6Fetch ["10-K"] none
      { cache := [], missing := [], chunks := [], calls := 0 } "AAPL" (by decide) rfl
    simpa using this

/-! ## Claim C7: fetch_targeted_filings and the general-small probe -/

/-- Embeds `EnhancedSECDataRetriever._fetch_general_small_probe`, with the two fetch
methods it can call passed as functions. -/
def fetchGeneralSmallProbe
    (fetchStruct : String → String → List String → List DocumentChunk)
    (fetchGeneral : String → String → List DocumentChunk)
    (a : QueryAnalysis) : List DocumentChunk :=
  (((if a.tickers.isEmpty then getDefaultCompanies a else a.tickers).take 1).map
    (fun c =>
      let form := (a.document_types.take 1).headD "10-K"
      if form = "10-K" || form = "10-Q" then
        fetchStruct c form (if form = "10-K" then ["1A"] else ["part1item2"])
      else fetchGeneral c form)).flatten.take 2

/-- The concatenation of per-target fetch results over the strategy's
targets capped to `maxTargets` (the `for t in strategy['targets'][:max_targets]`
loop of `fetch_targeted_filings`); sections are capped to 1 per target. -/
def targetedConcat (fetchInsider : String → String → List DocumentChunk)
    (fetchStruct : String → String → List String → List DocumentChunk)
    (fetchGeneral : String → String → List DocumentChunk)
    (a : QueryAnalysis) (allowDefault : Bool) (maxTargets : Nat) :
    List DocumentChunk :=
  (((determineRetrievalStrategy a allowDefault).targets.take maxTargets).map
    (fun t =>
      if t.filing_type = "3" || t.filing_type = "4" || t.filing_type = "5" then
        fetchInsider t.ticker t.filing_type
      else if t.filing_type = "10-K" || t.filing_type = "10-Q" then
        fetchStruct t.ticker t.filing_type (t.sections.take 1)
      else fetchGeneral t.ticker t.filing_type)).flatten

/-- Embeds `EnhancedSECDataRetriever.fetch_targeted_filings`. -/
def fetchTargetedFilings (fetchInsider : String → String → List DocumentChunk)
    (fetchStruct : String → String → List String → List DocumentChunk)
    (fetchGeneral : String → String → List DocumentChunk)
    (a : QueryAnalysis) (allowDefault : Bool) (fallback : String)
    (maxTargets : Nat) : List DocumentChunk :=
  if !(targetedConcat fetchInsider fetchStruct fetchGeneral a allowDefault
      maxTargets).isEmpty then
    targetedConcat fetchInsider fetchStruct fetchGeneral a allowDefault maxTargets
  else if fallback = "general_small" then fetchGeneralSmallProbe fetchStruct fetchGeneral a
  else []

/-- C7 (confirmed): the targeted concatenation is returned as soon as it is
non-empty; when empty and the fallback argument is `"general_small"` the
result is the reduced probe over at most 1 company (and a single
document-type string) with at most 2 records; an empty probe yields the
empty sequence with no further tier; any other fallback argument yields the
empty sequence immediately. -/
theorem claim_C7_fallback_termination
    (fI : String → String → List DocumentChunk)
    (fS : String → String → List String → List DocumentChunk)
    (fG : String → String → List DocumentChunk)
    (a : QueryAnalysis) (ad : Bool) (fb : String) (mt : Nat) :
    (targetedConcat fI fS fG a ad mt ≠ [] →
      fetchTargetedFilings fI fS fG a ad fb mt = targetedConcat fI fS fG a ad mt) ∧
    (targetedConcat fI fS fG a ad mt = [] → fb = "general_small" →
      fetchTargetedFilings fI fS fG a ad fb mt = fetchGeneralSmallProbe fS fG a) ∧
    (targetedConcat fI fS fG a ad mt = [] → fb ≠ "general_small" →
      fetchTargetedFilings fI fS fG a ad fb mt = []) ∧
    (targetedConcat fI fS fG a ad mt = [] → fb = "general_small" →
      fetchGeneralSmallProbe fS fG a = [] →
      fetchTargetedFilings fI fS fG a ad fb mt = []) ∧
    (fetchGeneralSmallProbe fS fG a).length ≤ 2 ∧
    ((if a.tickers.isEmpty then getDefaultCompanies a else a.tickers).take 1).length ≤ 1 := by
  refine ⟨?_, ?_, ?_, ?_, ?_, ?_⟩
  · intro hne
    unfold fetchTargetedFilings
    rw [if_pos]
    simp [List.isEmpty_iff, hne]
  · intro hemp hfb
    unfold fetchTargetedFilings
    rw [if_neg (by simp [List.isEmpty_iff, hemp]), if_pos hfb]
  · intro hemp hfb
    unfold fetchTargetedFilings
    rw [if_neg (by simp [List.isEmpty_iff, hemp]), if_neg hfb]
  · intro hemp hfb hprobe
    unfold fetchTargetedFilings
    rw [if_neg (by simp [List.isEmpty_iff, hemp]), if_pos hfb, hprobe]
  · exact List.length_take_le ..
  · exact List.length_take_le ..

def c7Analysis : QueryAnalysis := { query_type := "single_ticker" }

/-- C7 witness: with fetchers that always return nothing and a query that
matches no selector rule, the targeted tier is empty and the probe tier is
empty, and the whole call returns the empty sequence. -/
theorem claim_C7_witness :
    fetchTargetedFilings (fun _ _ => []) (fun _ _ _ => []) (fun _ _ => [])
      c7Analysis false "general_small" 6 = [] := by
  have h := (claim_C7_fallback_termination (fun _ _ => []) (fun _ _ _ => [])
    (fun _ _ => []) c7Analysis false "general_small" 6).2.2.2.1
  exact h (by decide) rfl (by decide)

end SECQA
